import Mathlib

/-!
Verification of the command dispatch engine of `@ls-stack/cli`
(`src/createCli.ts`, with the numeric prompt of `src/cliInput.ts`).

The data model and the operations are translated from the TypeScript source:
pure functions become Lean functions, the `parseArgs` while-loop becomes a
recursive function over the remaining raw tokens carrying the loop state
(the parsed record and the positional index), and every
`console.error(...); process.exit(1)` failure path becomes an
`Except.error` carrying the corresponding `ParseError`.  JavaScript objects
used as records (`Record<string, ...>`) become association lists that keep
insertion order, exactly as JS objects do; property assignment is the
order-preserving upsert `setArg`.
-/

namespace CliSpec

/-- A parsed argument value: the TS record type
`Record<string, string | number | boolean | undefined>` stores strings,
numbers and booleans (absent keys model `undefined`). -/
inductive Value where
  | str (s : String)
  | num (n : Int)
  | bool (b : Bool)
deriving DecidableEq, Repr

/-- The `Arg` tagged union of `createCli.ts` (lines 60-78): five variants,
each carrying `name` and `description`; positionals and value flags carry an
optional `default`.  JS numbers are modelled as `Int` (every number used by
the engine and its claims is integral). -/
inductive Arg where
  | positionalString (name : String) (dflt : Option String) (descr : String)
  | positionalNumber (name : String) (dflt : Option Int) (descr : String)
  | flag (name : String) (descr : String)
  | valueStringFlag (name : String) (dflt : Option String) (descr : String)
  | valueNumberFlag (name : String) (dflt : Option Int) (descr : String)
deriving DecidableEq, Repr

/-- The `name` field common to all `Arg` variants. -/
def Arg.name : Arg → String
  | .positionalString n _ _ => n
  | .positionalNumber n _ _ => n
  | .flag n _ => n
  | .valueStringFlag n _ _ => n
  | .valueNumberFlag n _ _ => n

/-- The test `argDef.type.startsWith('positional')` used throughout the source. -/
def Arg.isPositional : Arg → Bool
  | .positionalString _ _ _ => true
  | .positionalNumber _ _ _ => true
  | _ => false

/-- Whether the variant is one of the two value-carrying flag kinds. -/
def Arg.isValueFlag : Arg → Bool
  | .valueStringFlag _ _ _ => true
  | .valueNumberFlag _ _ _ => true
  | _ => false

/-- The test `'default' in argDef` of the source, for an `Arg` whose optional
`default` property is modelled by an `Option` (a `flag` has no such property). -/
def Arg.hasDefault : Arg → Bool
  | .positionalString _ d _ => d.isSome
  | .positionalNumber _ d _ => d.isSome
  | .flag _ _ => false
  | .valueStringFlag _ d _ => d.isSome
  | .valueNumberFlag _ d _ => d.isSome

/-- The value a field is seeded with by the initialization loop of
`parseArgs` (lines 495-502): every `flag` field starts as `false`; every
other field whose definition has a `default` starts as that default. -/
def Arg.seedValue : Arg → Option Value
  | .flag _ _ => some (Value.bool false)
  | .positionalString _ d _ => d.map Value.str
  | .positionalNumber _ d _ => d.map Value.num
  | .valueStringFlag _ d _ => d.map Value.str
  | .valueNumberFlag _ d _ => d.map Value.num

/-- The JS test `s.startsWith(pre)`, written over the character list so that
terms evaluate by kernel reduction (byte-position-based `String.startsWith`
does not). -/
def strStartsWith (s pre : String) : Bool := pre.data.isPrefixOf s.data

/-- The JS suffix `s.slice(n)` (drop the first `n` characters), written over
the character list. -/
def strDrop (s : String) (n : Nat) : String := String.mk (s.data.drop n)

/-- Decimal digit-string reading, the helper for the `Number(...)` model. -/
def parseDecDigits (s : String) : Option Nat :=
  if s.length > 0 ∧ s.data.all Char.isDigit then
    some (s.data.foldl (fun acc c => acc * 10 + (c.toNat - '0'.toNat)) 0)
  else none

/-- Model of the JavaScript `Number(string)` conversion on the fragment the
engine exercises: the empty string converts to `0`, an optional sign followed
by decimal digits converts to the corresponding integer, and any other string
is `NaN`, modelled as `none` (the source only ever checks `isNaN` and stores
the number). -/
def jsNumber (s : String) : Option Int :=
  if s = "" then some 0
  else if strStartsWith s "-" then (parseDecDigits (strDrop s 1)).map (fun m => -(m : Int))
  else if strStartsWith s "+" then (parseDecDigits (strDrop s 1)).map (fun m => (m : Int))
  else (parseDecDigits s).map (fun m => (m : Int))

/-- Model of the JavaScript `String(n)` conversion for the integral numbers
returned by the numeric prompt. -/
def jsNumberToString (v : Int) : String := toString v

/-- The parsed-arguments record (`ParsedArgs` in the source): a JS object,
modelled as an association list in insertion order; absent keys are
`undefined`. -/
abbrev ParsedArgs := List (String × Value)

/-- JS property assignment `parsed[key] = v`: updates an existing key in
place, otherwise appends the key at the end (JS objects keep insertion
order). -/
def setArg : ParsedArgs → String → Value → ParsedArgs
  | [], k, v => [(k, v)]
  | (k2, v2) :: rest, k, v =>
    if k2 = k then (k, v) :: rest else (k2, v2) :: setArg rest k v

/-- JS property read `parsed[key]`, `none` meaning `undefined`. -/
def getArg : ParsedArgs → String → Option Value
  | [], _ => none
  | (k2, v2) :: rest, k => if k2 = k then some v2 else getArg rest k

/-- The parse errors of `parseArgs`; each corresponds to one
`console.error(...); process.exit(1)` site of the source. -/
inductive ParseError where
  | unknownFlag (flagName : String)
  | missingValue (flagName : String)
  | invalidNumberFlag (value : String) (flagName : String)
  | invalidNumberPositional (value : String) (argName : String)
  | missingRequired (argName : String)
deriving DecidableEq, Repr

/-- The exact message printed for each parse error (colour styling, which
`removeANSIColors` strips, is omitted). -/
def ParseError.message : ParseError → String
  | .unknownFlag n => "Error: Unknown flag --" ++ n
  | .missingValue n => "Error: Missing value for --" ++ n
  | .invalidNumberFlag v n => "Error: Invalid number \"" ++ v ++ "\" for --" ++ n
  | .invalidNumberPositional v n => "Error: Invalid number \"" ++ v ++ "\" for " ++ n
  | .missingRequired n => "Error: Missing required argument <" ++ n ++ ">"

instance {α β : Type} [DecidableEq α] [DecidableEq β] : DecidableEq (Except α β) :=
  fun a b =>
    match a, b with
    | Except.error e1, Except.error e2 =>
      match decEq e1 e2 with
      | isTrue h => isTrue (h ▸ rfl)
      | isFalse h => isFalse (fun hc => h (Except.error.inj hc))
    | Except.ok v1, Except.ok v2 =>
      match decEq v1 v2 with
      | isTrue h => isTrue (h ▸ rfl)
      | isFalse h => isFalse (fun hc => h (Except.ok.inj hc))
    | Except.error _, Except.ok _ => isFalse (fun hc => Except.noConfusion hc)
    | Except.ok _, Except.error _ => isFalse (fun hc => Except.noConfusion hc)

/-- The lookup
`argEntries.find(([, argDef]) => argDef.name === flagName)` (line 517):
first schema entry whose `name` equals the flag name. -/
def findFlagEntry (entries : List (String × Arg)) (flagName : String) :
    Option (String × Arg) :=
  entries.find? (fun e => e.2.name == flagName)

/-- The seeding loop of `parseArgs` (lines 495-502), iterating the schema
entries in declaration order over an accumulating record. -/
def seedDefaultsAux (parsed : ParsedArgs) : List (String × Arg) → ParsedArgs
  | [] => parsed
  | (key, a) :: rest =>
    seedDefaultsAux
      (match a.seedValue with
       | some v => setArg parsed key v
       | none => parsed) rest

/-- The seeded record `parsed` right before the scanning loop starts. -/
def seedDefaults (entries : List (String × Arg)) : ParsedArgs :=
  seedDefaultsAux [] entries

/-- The ordered sub-list of positional arguments (line 505):
`argEntries.filter(([, argDef]) => argDef.type.startsWith('positional'))`. -/
def positionalsOf (entries : List (String × Arg)) : List (String × Arg) :=
  entries.filter (fun e => e.2.isPositional)

/-- The scanning `while` loop of `parseArgs` (lines 511-571), as a recursive
function over the remaining raw tokens; the state is the record `parsed` and
`positionalIndex`, returned on normal termination.  Each failure path
(`console.error`; `process.exit(1)`) is an `Except.error`.  The truthiness
test `value && !value.startsWith('--')` on the lookahead token becomes
`value ≠ "" ∧ strStartsWith value "--" = false` (the empty string is falsy). -/
def parseLoop (entries positionals : List (String × Arg)) :
    List String → ParsedArgs → Nat → Except ParseError (ParsedArgs × Nat)
  | [], parsed, posIdx => Except.ok (parsed, posIdx)
  | currentArg :: rest, parsed, posIdx =>
    if strStartsWith currentArg "--" then
      match findFlagEntry entries (strDrop currentArg 2) with
      | none => Except.error (ParseError.unknownFlag (strDrop currentArg 2))
      | some (key, argDef) =>
        match argDef with
        | Arg.flag _ _ =>
          parseLoop entries positionals rest (setArg parsed key (Value.bool true)) posIdx
        | Arg.valueStringFlag n _ _ =>
          match rest with
          | [] => Except.error (ParseError.missingValue n)
          | value :: rest2 =>
            if value ≠ "" ∧ strStartsWith value "--" = false then
              parseLoop entries positionals rest2 (setArg parsed key (Value.str value)) posIdx
            else Except.error (ParseError.missingValue n)
        | Arg.valueNumberFlag n _ _ =>
          match rest with
          | [] => Except.error (ParseError.missingValue n)
          | value :: rest2 =>
            if value ≠ "" ∧ strStartsWith value "--" = false then
              match jsNumber value with
              | none => Except.error (ParseError.invalidNumberFlag value n)
              | some numValue =>
                parseLoop entries positionals rest2 (setArg parsed key (Value.num numValue)) posIdx
            else Except.error (ParseError.missingValue n)
        | _ => parseLoop entries positionals rest parsed posIdx
    else
      match positionals.get? posIdx with
      | some (key, Arg.positionalNumber n _ _) =>
        match jsNumber currentArg with
        | none => Except.error (ParseError.invalidNumberPositional currentArg n)
        | some numValue =>
          parseLoop entries positionals rest (setArg parsed key (Value.num numValue)) (posIdx + 1)
      | some (key, _) =>
        parseLoop entries positionals rest (setArg parsed key (Value.str currentArg)) (posIdx + 1)
      | none => parseLoop entries positionals rest parsed posIdx

/-- The required-positional validation loop of `parseArgs` (lines 573-579):
the first positional entry without a `default` whose field is still unset. -/
def firstMissingRequired (positionals : List (String × Arg)) (parsed : ParsedArgs) :
    Option (String × Arg) :=
  positionals.find? (fun e => !e.2.hasDefault && (getArg parsed e.1).isNone)

/-- `parseArgs(rawArgs, commandArgs)` (lines 489-582): empty record when
there is no schema; otherwise seed, scan, then validate required
positionals. -/
def parseArgs (rawArgs : List String) (commandArgs : Option (List (String × Arg))) :
    Except ParseError ParsedArgs :=
  match commandArgs with
  | none => Except.ok []
  | some entries =>
    match parseLoop entries (positionalsOf entries) rawArgs (seedDefaults entries) 0 with
    | Except.error e => Except.error e
    | Except.ok (parsed, _) =>
      match firstMissingRequired (positionalsOf entries) parsed with
      | some (_, argDef) => Except.error (ParseError.missingRequired argDef.name)
      | none => Except.ok parsed

/-- A registered command (the `Cmd` type of the source, lines 80-90),
keeping the fields the dispatch engine inspects: `short`, `description` and
the argument schema in declaration order.  The handler `run` is opaque to the
engine (it only ever receives the parsed record, captured below by the
`CmdOutcome.ran` outcome), and `examples` only feeds per-command help text,
which no claim concerns. -/
structure Cmd where
  short : Option String
  description : String
  args : Option (List (String × Arg))
deriving DecidableEq, Repr

/-- The match test of the dispatch loop in `runCmd` (line 588):
`cmd === short || cmd === cmdId`. -/
def cmdMatches (cmd : String) (e : String × Cmd) : Bool :=
  e.2.short == some cmd || e.1 == cmd

/-- The observable outcome of `runCmd` (lines 584-608): per-command help
printed (exit 0), handler invoked with the parsed record then exit 0, a
parse error (exit 1), or an unknown command (error plus help dump, exit 1).
`ran` assumes the handler itself settles normally. -/
inductive CmdOutcome where
  | helpShown (cmdId : String)
  | ran (cmdId : String) (record : ParsedArgs)
  | parseFailed (e : ParseError)
  | notFound (cmd : String)
deriving DecidableEq, Repr

/-- The process exit status each `runCmd` outcome terminates with. -/
def CmdOutcome.exitCode : CmdOutcome → Nat
  | .helpShown _ => 0
  | .ran _ _ => 0
  | .parseFailed _ => 1
  | .notFound _ => 1

/-- `runCmd(cmd, args)` (lines 584-608): the first registry entry whose id or
`short` equals the token wins; `-h`/`--help` anywhere in the remaining args
shows that command's help; otherwise the args are parsed against the schema
and the handler is invoked with the record. -/
def runCmd (cmds : List (String × Cmd)) (cmd : String) (args : List String) :
    CmdOutcome :=
  match cmds.find? (cmdMatches cmd) with
  | some (cmdId, c) =>
    if args.contains "-h" || args.contains "--help" then CmdOutcome.helpShown cmdId
    else
      match parseArgs args c.args with
      | Except.error e => CmdOutcome.parseFailed e
      | Except.ok parsed => CmdOutcome.ran cmdId parsed
  | none => CmdOutcome.notFound cmd

/-- The two short aliases reserved for built-in commands (line 261). -/
def reservedShortCmds : List String := ["i", "h"]

/-- The fatal registry violations detected by the startup loop of
`createCLI` (lines 260-283). -/
inductive ShortCmdError where
  | reserved (short : String)
  | duplicated (short : String)
deriving DecidableEq, Repr

/-- The startup validation loop of `createCLI` (lines 265-283): walks the
registry in insertion order carrying the set of already-added short aliases,
and stops at the first reserved or duplicated `short`. -/
def checkShortCmdsAux (added : List String) : List (String × Cmd) → Option ShortCmdError
  | [] => none
  | (_, c) :: rest =>
    match c.short with
    | none => checkShortCmdsAux added rest
    | some s =>
      if s ∈ reservedShortCmds then some (ShortCmdError.reserved s)
      else if s ∈ added then some (ShortCmdError.duplicated s)
      else checkShortCmdsAux (s :: added) rest

/-- The first short-alias violation of the registry, if any. -/
def checkShortCmds (cmds : List (String × Cmd)) : Option ShortCmdError :=
  checkShortCmdsAux [] cmds

/-- The interactive input provider consumed by the engine (`cliInput`):
`select` receives a title and the ordered option values and returns the
chosen value; `text` returns the entered string; `number` returns the
entered number, or `none` for a `null` result (a non-cancellation input
failure — cancellation terminates the process and so never reaches the
engine). -/
structure InputProvider where
  select : String → List String → String
  text : String → String
  number : String → Option Int

/-- The test `hasRequiredArgs` of `createCLI` (lines 611-618): whether the
schema has a positional argument without a `default`. -/
def hasRequiredArgs (args : Option (List (String × Arg))) : Bool :=
  match args with
  | none => false
  | some l => l.any (fun e => e.2.isPositional && !e.2.hasDefault)

/-- Modelled from the spec: `sortBy`/`getAscIndexOrder` come from the
external `@ls-stack/utils` package, which is not part of this repository.
Per the spec (§3), an explicit sort list overrides insertion order and
"tokens not present in the sort list are treated as unordered/appended":
listed commands first in list order, then the remaining ones in insertion
order. -/
def sortBySortList (sortList : List String) (cmds : List (String × Cmd)) :
    List (String × Cmd) :=
  (sortList.filterMap (fun c => cmds.find? (fun e => e.1 == c))) ++
    cmds.filter (fun e => !sortList.contains e.1)

/-- The command entries in interactive display order (lines 620-626): the
explicit sort list when provided, else registry insertion order. -/
def cmdEntriesOf (cmds : List (String × Cmd)) (sortList : Option (List String)) :
    List (String × Cmd) :=
  match sortList with
  | some s => sortBySortList s cmds
  | none => cmds

/-- The option values of the first interactive selection (lines 631-640):
every directly runnable command, plus the `__run_with_args__` sentinel when
some command needs arguments. -/
def interactiveSelectOptions (cmds : List (String × Cmd))
    (sortList : Option (List String)) : List String :=
  let cmdEntries := cmdEntriesOf cmds sortList
  (cmdEntries.filter (fun e => !hasRequiredArgs e.2.args)).map Prod.fst ++
    (if (cmdEntries.filter (fun e => hasRequiredArgs e.2.args)) ≠ [] then
      ["__run_with_args__"] else [])

/-- The guided prompting loop of the interactive fallback (lines 658-675):
walks the schema in declaration order and, for every positional field
without a `default`, prompts with the field's `name` — `text` for a string
(the value is pushed), `number` for a number (`String(value)` is pushed
unless the prompt returned `null`, in which case the field is skipped). -/
def collectArgs (ip : InputProvider) : List (String × Arg) → List String
  | [] => []
  | (_, a) :: rest =>
    match a with
    | Arg.positionalString n none _ => ip.text n :: collectArgs ip rest
    | Arg.positionalNumber n none _ =>
      (match ip.number n with
       | some v => [jsNumberToString v]
       | none => []) ++ collectArgs ip rest
    | _ => collectArgs ip rest

/-- The observable outcome of one `createCLI` invocation: a fatal
short-alias violation (exit 1), top-level help printed (exit 0), a command
outcome, or `stuck` — a model artifact for the unreachable state where the
second interactive selection returns a value that is not a registry key
(the source would crash dereferencing `cmds[selectedCmd]`). -/
inductive CliOutcome where
  | schemaViolation (e : ShortCmdError)
  | helpPrinted
  | fromCmd (o : CmdOutcome)
  | stuck
deriving DecidableEq, Repr

/-- The process exit status of each `createCLI` outcome. -/
def CliOutcome.exitCode : CliOutcome → Nat
  | .schemaViolation _ => 1
  | .helpPrinted => 0
  | .fromCmd o => o.exitCode
  | .stuck => 1

/-- The interactive fallback (lines 610-680): order the registry, partition
it by `hasRequiredArgs`, offer the runnable commands plus the sentinel;
choosing a runnable command dispatches it with an empty argv; choosing the
sentinel asks for one of the commands needing arguments, collects its
required values one prompt at a time, and dispatches it with the collected
synthetic argv. -/
def interactiveFallback (cmds : List (String × Cmd))
    (sortList : Option (List String)) (ip : InputProvider) : CliOutcome :=
  let cmdEntries := cmdEntriesOf cmds sortList
  let cmdsWithRequiredArgs := cmdEntries.filter (fun e => hasRequiredArgs e.2.args)
  let response := ip.select "Select a command" (interactiveSelectOptions cmds sortList)
  if response = "__run_with_args__" then
    let selectedCmd := ip.select "Select a command" (cmdsWithRequiredArgs.map Prod.fst)
    match cmds.find? (fun e => e.1 == selectedCmd) with
    | some (_, cmdDef) =>
      CliOutcome.fromCmd
        (runCmd cmds selectedCmd
          (match cmdDef.args with
           | some l => collectArgs ip l
           | none => []))
    | none => CliOutcome.stuck
  else CliOutcome.fromCmd (runCmd cmds response [])

/-- The top of `createCLI` (lines 241-285 and 453-694) as a function of its
explicit inputs: the registry, the optional sort list, the first argv token
after the binary (`none` models an absent — or, via JS falsiness, empty —
token), the remaining argv, and the input provider.  Short-alias validation
runs first; with no command token the user chooses between help and
interactive mode; the help tokens print top-level help; `i` enters the
interactive fallback; anything else is dispatched as a command. -/
def createCLIOutcome (cmds : List (String × Cmd)) (sortList : Option (List String))
    (cmdFromTerminal : Option String) (cmdArgs : List String)
    (ip : InputProvider) : CliOutcome :=
  match checkShortCmds cmds with
  | some err => CliOutcome.schemaViolation err
  | none =>
    match cmdFromTerminal with
    | none =>
      if ip.select "Choose an action" ["run-cmd", "print-help"] = "print-help" then
        CliOutcome.helpPrinted
      else interactiveFallback cmds sortList ip
    | some id =>
      if id = "-h" ∨ id = "--help" ∨ id = "help" ∨ id = "h" then CliOutcome.helpPrinted
      else if id = "i" then interactiveFallback cmds sortList ip
      else CliOutcome.fromCmd (runCmd cmds id cmdArgs)

/-- The unstyled command label of the top-level help
(`${cmd}${short ? ` or ${short}` : ''}`, lines 290-294 and 303-305). -/
def cmdLabel (cmdId : String) (short : Option String) : String :=
  cmdId ++ (match short with | some s => " or " ++ s | none => "")

/-- `largestCmdTextLength` (lines 290-294): the longest command label. -/
def largestCmdTextLength (cmds : List (String × Cmd)) : Nat :=
  cmds.foldl (fun m e => max m (cmdLabel e.1 e.2.short).length) 0

/-- The bracketed one-token summary of an argument in the brief args line of
the top-level help (lines 320-333). -/
def briefArg : Arg → String
  | Arg.positionalString n _ _ => "[" ++ n ++ "]"
  | Arg.positionalNumber n _ _ => "[" ++ n ++ "]"
  | Arg.flag n _ => "[--" ++ n ++ "]"
  | Arg.valueStringFlag n _ _ => "[--" ++ n ++ "]"
  | Arg.valueNumberFlag n _ _ => "[--" ++ n ++ "]"

/-- The brief args summary (lines 313-334): schema entries stably reordered
positionals-first (the comparator of the stable `Array.prototype.sort`
returns 0 within each group), each rendered by `briefArg`, joined by
spaces. -/
def argsBrief (args : List (String × Arg)) : String :=
  String.intercalate " "
    ((args.filter (fun e => e.2.isPositional) ++
      args.filter (fun e => !e.2.isPositional)).map (fun e => briefArg e.2))

/-- One command's block in the top-level help listing (lines 303-339),
without ANSI styling: the padded label, `->`, the description, and — when
the schema is non-empty — the brief args line. -/
def helpCmdLine (largest : Nat) (e : String × Cmd) : String :=
  let label := cmdLabel e.1 e.2.short
  let base := label ++ String.mk (List.replicate (largest - label.length + 1) ' ') ++
    "-> " ++ e.2.description
  match e.2.args with
  | some l => if l.length > 0 then base ++ "\n └─ args: " ++ argsBrief l else base
  | none => base

/-- The command blocks of the top-level help, in the order `printHelp`
renders them (lines 296-346): `printHelp` maps over
`typedObjectEntries(cmds)` — registry insertion order.  The `sortList`
parameter mirrors the `sort` option in scope in `createCLI`; `printHelp`
never consults it. -/
def printHelpCmdLines (cmds : List (String × Cmd))
    (sortList : Option (List String)) : List String :=
  match sortList with
  | _ => cmds.map (helpCmdLine (largestCmdTextLength cmds))

/-- Follows the spec's words, not the source (for comparison with
`printHelpCmdLines`): "Top-level help lists commands in the explicit sort
order when provided, else registry declaration order" — the same command
blocks, but over the sort-ordered registry when a sort list is given. -/
def specHelpCmdLines (cmds : List (String × Cmd))
    (sortList : Option (List String)) : List String :=
  (cmdEntriesOf cmds sortList).map (helpCmdLine (largestCmdTextLength cmds))

/-! ### Record-update lemmas -/

theorem getArg_setArg (p : ParsedArgs) (k : String) (v : Value) (k' : String) :
    getArg (setArg p k v) k' = if k' = k then some v else getArg p k' := by
  induction p with
  | nil =>
    by_cases h : k' = k
    · subst h; simp [setArg, getArg]
    · simp [setArg, getArg, h, Ne.symm h]
  | cons hd tl ih =>
    obtain ⟨k2, v2⟩ := hd
    by_cases h2 : k2 = k
    · subst h2
      by_cases h : k' = k2
      · subst h; simp [setArg, getArg]
      · simp [setArg, getArg, h, Ne.symm h]
    · by_cases h : k' = k2
      · subst h
        simp [setArg, getArg, h2, Ne.symm h2]
      · simp [setArg, getArg, h2, h, Ne.symm h, ih]

theorem getArg_setArg_ne (p : ParsedArgs) (k : String) (v : Value) (k' : String)
    (h : k' ≠ k) : getArg (setArg p k v) k' = getArg p k' := by
  simp [getArg_setArg, h]

theorem getArg_setArg_isSome (p : ParsedArgs) (k k2 : String) (v : Value)
    (h : (getArg p k).isSome) : (getArg (setArg p k2 v) k).isSome := by
  rw [getArg_setArg]
  by_cases hk : k = k2 <;> simp [hk, h]

theorem setArg_comm (p : ParsedArgs) (k1 k2 : String) (v1 v2 : Value)
    (h1 : (getArg p k1).isSome) (hne : k1 ≠ k2) :
    setArg (setArg p k1 v1) k2 v2 = setArg (setArg p k2 v2) k1 v1 := by
  induction p with
  | nil => simp [getArg] at h1
  | cons hd tl ih =>
    obtain ⟨k, w⟩ := hd
    by_cases hk1 : k = k1
    · subst hk1
      simp [setArg, hne, Ne.symm hne]
    · by_cases hk2 : k = k2
      · subst hk2
        simp [setArg, hk1, Ne.symm hk1, Ne.symm hne]
      · have h1' : (getArg tl k1).isSome := by
          simpa [getArg, hk1] using h1
        simp [setArg, hk1, hk2, ih h1']

/-! ### Key-uniqueness and seeding lemmas -/

theorem mem_unique_of_nodup_keys {α : Type} {l : List (String × α)}
    (hnd : (l.map Prod.fst).Nodup) {k : String} {a b : α}
    (ha : (k, a) ∈ l) (hb : (k, b) ∈ l) : a = b := by
  induction l with
  | nil => simp at ha
  | cons hd tl ih =>
    rw [List.map_cons, List.nodup_cons] at hnd
    rcases List.mem_cons.mp ha with ha1 | ha1
    · rcases List.mem_cons.mp hb with hb1 | hb1
      · have : (k, a) = (k, b) := ha1.trans hb1.symm
        exact congrArg Prod.snd this
      · exfalso
        apply hnd.1
        have hmem : k ∈ tl.map Prod.fst := List.mem_map_of_mem Prod.fst hb1
        rw [← ha1]
        exact hmem
    · rcases List.mem_cons.mp hb with hb1 | hb1
      · exfalso
        apply hnd.1
        have hmem : k ∈ tl.map Prod.fst := List.mem_map_of_mem Prod.fst ha1
        rw [← hb1]
        exact hmem
      · exact ih hnd.2 ha1 hb1

theorem getArg_seedDefaultsAux_of_none (l : List (String × Arg)) :
    ∀ (p : ParsedArgs) (k : String), (∀ b, (k, b) ∈ l → b.seedValue = none) →
      getArg (seedDefaultsAux p l) k = getArg p k := by
  induction l with
  | nil => intro p k _; rfl
  | cons hd tl ih =>
    intro p k hnone
    obtain ⟨k2, a⟩ := hd
    by_cases hk : k2 = k
    · subst hk
      have : a.seedValue = none := hnone a (List.mem_cons_self _ _)
      simpa [seedDefaultsAux, this] using
        ih p k2 (fun b hb => hnone b (List.mem_cons_of_mem _ hb))
    · cases hsv : a.seedValue with
      | none =>
        simpa [seedDefaultsAux, hsv] using
          ih p k (fun b hb => hnone b (List.mem_cons_of_mem _ hb))
      | some v =>
        have := ih (setArg p k2 v) k (fun b hb => hnone b (List.mem_cons_of_mem _ hb))
        simp only [seedDefaultsAux, hsv]
        rw [this, getArg_setArg_ne _ _ _ _ (fun h => hk h.symm)]

theorem getArg_seedDefaultsAux_isSome_mono (l : List (String × Arg)) :
    ∀ (p : ParsedArgs) (k : String), (getArg p k).isSome →
      (getArg (seedDefaultsAux p l) k).isSome := by
  induction l with
  | nil => intro p k h; exact h
  | cons hd tl ih =>
    intro p k h
    obtain ⟨k2, a⟩ := hd
    cases hsv : a.seedValue with
    | none => simpa [seedDefaultsAux, hsv] using ih p k h
    | some v =>
      simpa [seedDefaultsAux, hsv] using ih (setArg p k2 v) k (getArg_setArg_isSome p k k2 v h)

theorem getArg_seedDefaultsAux_isSome (l : List (String × Arg)) :
    ∀ (p : ParsedArgs) (k : String) (a : Arg), (k, a) ∈ l → a.seedValue.isSome →
      (getArg (seedDefaultsAux p l) k).isSome := by
  induction l with
  | nil => intro p k a ha _; simp at ha
  | cons hd tl ih =>
    intro p k a ha hsv
    obtain ⟨k2, b⟩ := hd
    rcases List.mem_cons.mp ha with ha1 | ha1
    · injection ha1 with hk hab
      subst hk
      subst hab
      obtain ⟨v, hv⟩ := Option.isSome_iff_exists.mp hsv
      simp only [seedDefaultsAux, hv]
      apply getArg_seedDefaultsAux_isSome_mono
      rw [getArg_setArg]
      simp
    · cases hsv2 : b.seedValue with
      | none =>
        simp only [seedDefaultsAux, hsv2]
        exact ih p k a ha1 hsv
      | some v =>
        simp only [seedDefaultsAux, hsv2]
        exact ih (setArg p k2 v) k a ha1 hsv

/-! ### Step lemmas for the scanning loop -/

section StepLemmas

variable (E P : List (String × Arg))

theorem parseLoop_nil (p : ParsedArgs) (i : Nat) :
    parseLoop E P [] p i = Except.ok (p, i) := by
  simp [parseLoop]

theorem parseLoop_cons_boolflag {t : String} {key n d : String}
    (h1 : strStartsWith t "--" = true)
    (h2 : findFlagEntry E (strDrop t 2) = some (key, Arg.flag n d))
    (rest : List String) (p : ParsedArgs) (i : Nat) :
    parseLoop E P (t :: rest) p i =
      parseLoop E P rest (setArg p key (Value.bool true)) i := by
  simp [parseLoop, h1, h2]

theorem parseLoop_cons_unknown {t : String}
    (h1 : strStartsWith t "--" = true)
    (h2 : findFlagEntry E (strDrop t 2) = none)
    (rest : List String) (p : ParsedArgs) (i : Nat) :
    parseLoop E P (t :: rest) p i =
      Except.error (ParseError.unknownFlag (strDrop t 2)) := by
  simp [parseLoop, h1, h2]

theorem parseLoop_cons_posEntrySkip {t key : String} {a : Arg}
    (h1 : strStartsWith t "--" = true)
    (h2 : findFlagEntry E (strDrop t 2) = some (key, a))
    (h3 : a.isPositional = true)
    (rest : List String) (p : ParsedArgs) (i : Nat) :
    parseLoop E P (t :: rest) p i = parseLoop E P rest p i := by
  cases a <;> simp [Arg.isPositional] at h3 <;> simp [parseLoop, h1, h2]

theorem parseLoop_cons_valueString {t : String} {key n : String}
    {d : Option String} {ds : String}
    (h1 : strStartsWith t "--" = true)
    (h2 : findFlagEntry E (strDrop t 2) = some (key, Arg.valueStringFlag n d ds))
    (rest : List String) (p : ParsedArgs) (i : Nat) :
    parseLoop E P (t :: rest) p i =
      match rest with
      | [] => Except.error (ParseError.missingValue n)
      | value :: rest2 =>
        if value ≠ "" ∧ strStartsWith value "--" = false then
          parseLoop E P rest2 (setArg p key (Value.str value)) i
        else Except.error (ParseError.missingValue n) := by
  cases rest <;> simp [parseLoop, h1, h2]

theorem parseLoop_cons_valueNumber {t : String} {key n : String}
    {d : Option Int} {ds : String}
    (h1 : strStartsWith t "--" = true)
    (h2 : findFlagEntry E (strDrop t 2) = some (key, Arg.valueNumberFlag n d ds))
    (rest : List String) (p : ParsedArgs) (i : Nat) :
    parseLoop E P (t :: rest) p i =
      match rest with
      | [] => Except.error (ParseError.missingValue n)
      | value :: rest2 =>
        if value ≠ "" ∧ strStartsWith value "--" = false then
          match jsNumber value with
          | none => Except.error (ParseError.invalidNumberFlag value n)
          | some numValue =>
            parseLoop E P rest2 (setArg p key (Value.num numValue)) i
        else Except.error (ParseError.missingValue n) := by
  cases rest <;> simp [parseLoop, h1, h2]

theorem parseLoop_cons_plain_none {t : String} {i : Nat}
    (h1 : strStartsWith t "--" = false)
    (h2 : P.get? i = none)
    (rest : List String) (p : ParsedArgs) :
    parseLoop E P (t :: rest) p i = parseLoop E P rest p i := by
  rw [List.get?_eq_getElem?] at h2
  simp [parseLoop, h1, h2]

theorem parseLoop_cons_plain_posString {t key n : String} {i : Nat}
    {d : Option String} {ds : String}
    (h1 : strStartsWith t "--" = false)
    (h2 : P.get? i = some (key, Arg.positionalString n d ds))
    (rest : List String) (p : ParsedArgs) :
    parseLoop E P (t :: rest) p i =
      parseLoop E P rest (setArg p key (Value.str t)) (i + 1) := by
  rw [List.get?_eq_getElem?] at h2
  simp [parseLoop, h1, h2]

theorem parseLoop_cons_plain_posNumber_ok {t key n : String} {i : Nat}
    {d : Option Int} {ds : String} {m : Int}
    (h1 : strStartsWith t "--" = false)
    (h2 : P.get? i = some (key, Arg.positionalNumber n d ds))
    (h3 : jsNumber t = some m)
    (rest : List String) (p : ParsedArgs) :
    parseLoop E P (t :: rest) p i =
      parseLoop E P rest (setArg p key (Value.num m)) (i + 1) := by
  rw [List.get?_eq_getElem?] at h2
  simp [parseLoop, h1, h2, h3]

theorem parseLoop_cons_plain_posNumber_err {t key n : String} {i : Nat}
    {d : Option Int} {ds : String}
    (h1 : strStartsWith t "--" = false)
    (h2 : P.get? i = some (key, Arg.positionalNumber n d ds))
    (h3 : jsNumber t = none)
    (rest : List String) (p : ParsedArgs) :
    parseLoop E P (t :: rest) p i =
      Except.error (ParseError.invalidNumberPositional t n) := by
  rw [List.get?_eq_getElem?] at h2
  simp [parseLoop, h1, h2, h3]

end StepLemmas

/-- Master case analysis for one iteration of the scanning loop, stated for
two start records at once: the branch taken never depends on the record, so
either both runs fail right here with the same error, or both perform the
same field write and continue at the same cursor and positional index, or
both skip the token. -/
theorem parseLoop_step2 (E P : List (String × Arg)) (t : String) (rest : List String)
    (p q : ParsedArgs) (i : Nat) :
    (∃ e, parseLoop E P (t :: rest) p i = Except.error e ∧
          parseLoop E P (t :: rest) q i = Except.error e) ∨
    (∃ k v rest' j,
      parseLoop E P (t :: rest) p i = parseLoop E P rest' (setArg p k v) j ∧
      parseLoop E P (t :: rest) q i = parseLoop E P rest' (setArg q k v) j ∧
      rest'.length ≤ rest.length ∧
      (rest' = rest ∨ ∃ v0 rest2, rest = v0 :: rest2 ∧ rest' = rest2 ∧
        strStartsWith v0 "--" = false) ∧
      ((j = i ∧ ∃ a, findFlagEntry E (strDrop t 2) = some (k, a) ∧ a.isPositional = false) ∨
       (j = i + 1 ∧ rest' = rest ∧ ∃ a, P.get? i = some (k, a)))) ∨
    (parseLoop E P (t :: rest) p i = parseLoop E P rest p i ∧
     parseLoop E P (t :: rest) q i = parseLoop E P rest q i) := by
  by_cases ht : strStartsWith t "--" = true
  · cases hf : findFlagEntry E (strDrop t 2) with
    | none =>
      exact Or.inl ⟨ParseError.unknownFlag (strDrop t 2),
        parseLoop_cons_unknown E P ht hf rest p i,
        parseLoop_cons_unknown E P ht hf rest q i⟩
    | some ka =>
      obtain ⟨key, a⟩ := ka
      cases a with
      | flag n d =>
        refine Or.inr (Or.inl ⟨key, Value.bool true, rest, i,
          parseLoop_cons_boolflag E P ht hf rest p i,
          parseLoop_cons_boolflag E P ht hf rest q i,
          le_refl _, Or.inl rfl, Or.inl ⟨rfl, ⟨Arg.flag n d, rfl, rfl⟩⟩⟩)
      | valueStringFlag n d ds =>
        cases rest with
        | nil =>
          exact Or.inl ⟨ParseError.missingValue n,
            parseLoop_cons_valueString E P ht hf [] p i,
            parseLoop_cons_valueString E P ht hf [] q i⟩
        | cons value rest2 =>
          by_cases hv : value ≠ "" ∧ strStartsWith value "--" = false
          · refine Or.inr (Or.inl ⟨key, Value.str value, rest2, i, ?_, ?_,
              by simp, Or.inr ⟨value, rest2, rfl, rfl, hv.2⟩,
              Or.inl ⟨rfl, ⟨Arg.valueStringFlag n d ds, rfl, rfl⟩⟩⟩)
            · rw [parseLoop_cons_valueString E P ht hf (value :: rest2) p i]
              simp [hv]
            · rw [parseLoop_cons_valueString E P ht hf (value :: rest2) q i]
              simp [hv]
          · refine Or.inl ⟨ParseError.missingValue n, ?_, ?_⟩
            · rw [parseLoop_cons_valueString E P ht hf (value :: rest2) p i]
              simp [hv]
            · rw [parseLoop_cons_valueString E P ht hf (value :: rest2) q i]
              simp [hv]
      | valueNumberFlag n d ds =>
        cases rest with
        | nil =>
          exact Or.inl ⟨ParseError.missingValue n,
            parseLoop_cons_valueNumber E P ht hf [] p i,
            parseLoop_cons_valueNumber E P ht hf [] q i⟩
        | cons value rest2 =>
          by_cases hv : value ≠ "" ∧ strStartsWith value "--" = false
          · cases hn : jsNumber value with
            | none =>
              refine Or.inl ⟨ParseError.invalidNumberFlag value n, ?_, ?_⟩
              · rw [parseLoop_cons_valueNumber E P ht hf (value :: rest2) p i]
                simp [hv, hn]
              · rw [parseLoop_cons_valueNumber E P ht hf (value :: rest2) q i]
                simp [hv, hn]
            | some m =>
              refine Or.inr (Or.inl ⟨key, Value.num m, rest2, i, ?_, ?_,
                by simp, Or.inr ⟨value, rest2, rfl, rfl, hv.2⟩,
                Or.inl ⟨rfl, ⟨Arg.valueNumberFlag n d ds, rfl, rfl⟩⟩⟩)
              · rw [parseLoop_cons_valueNumber E P ht hf (value :: rest2) p i]
                simp [hv, hn]
              · rw [parseLoop_cons_valueNumber E P ht hf (value :: rest2) q i]
                simp [hv, hn]
          · refine Or.inl ⟨ParseError.missingValue n, ?_, ?_⟩
            · rw [parseLoop_cons_valueNumber E P ht hf (value :: rest2) p i]
              simp [hv]
            · rw [parseLoop_cons_valueNumber E P ht hf (value :: rest2) q i]
              simp [hv]
      | positionalString n d ds =>
        exact Or.inr (Or.inr
          ⟨parseLoop_cons_posEntrySkip E P ht hf rfl rest p i,
           parseLoop_cons_posEntrySkip E P ht hf rfl rest q i⟩)
      | positionalNumber n d ds =>
        exact Or.inr (Or.inr
          ⟨parseLoop_cons_posEntrySkip E P ht hf rfl rest p i,
           parseLoop_cons_posEntrySkip E P ht hf rfl rest q i⟩)
  · have ht' : strStartsWith t "--" = false := by
      cases h : strStartsWith t "--"
      · rfl
      · exact absurd h ht
    cases hg : P.get? i with
    | none =>
      exact Or.inr (Or.inr
        ⟨parseLoop_cons_plain_none E P ht' hg rest p,
         parseLoop_cons_plain_none E P ht' hg rest q⟩)
    | some ka =>
      obtain ⟨key, a⟩ := ka
      cases a with
      | positionalNumber n d ds =>
        cases hn : jsNumber t with
        | none =>
          exact Or.inl ⟨ParseError.invalidNumberPositional t n,
            parseLoop_cons_plain_posNumber_err E P ht' hg hn rest p,
            parseLoop_cons_plain_posNumber_err E P ht' hg hn rest q⟩
        | some m =>
          exact Or.inr (Or.inl ⟨key, Value.num m, rest, i + 1,
            parseLoop_cons_plain_posNumber_ok E P ht' hg hn rest p,
            parseLoop_cons_plain_posNumber_ok E P ht' hg hn rest q,
            le_refl _, Or.inl rfl,
            Or.inr ⟨rfl, rfl, ⟨Arg.positionalNumber n d ds, rfl⟩⟩⟩)
      | positionalString n d ds =>
        exact Or.inr (Or.inl ⟨key, Value.str t, rest, i + 1,
          parseLoop_cons_plain_posString E P ht' hg rest p,
          parseLoop_cons_plain_posString E P ht' hg rest q,
          le_refl _, Or.inl rfl,
          Or.inr ⟨rfl, rfl, ⟨Arg.positionalString n d ds, rfl⟩⟩⟩)
      | flag n d =>
        refine Or.inr (Or.inl ⟨key, Value.str t, rest, i + 1, ?_, ?_,
          le_refl _, Or.inl rfl, Or.inr ⟨rfl, rfl, ⟨Arg.flag n d, rfl⟩⟩⟩)
        · rw [List.get?_eq_getElem?] at hg
          simp [parseLoop, ht', hg]
        · rw [List.get?_eq_getElem?] at hg
          simp [parseLoop, ht', hg]
      | valueStringFlag n d ds =>
        refine Or.inr (Or.inl ⟨key, Value.str t, rest, i + 1, ?_, ?_,
          le_refl _, Or.inl rfl, Or.inr ⟨rfl, rfl, ⟨Arg.valueStringFlag n d ds, rfl⟩⟩⟩)
        · rw [List.get?_eq_getElem?] at hg
          simp [parseLoop, ht', hg]
        · rw [List.get?_eq_getElem?] at hg
          simp [parseLoop, ht', hg]
      | valueNumberFlag n d ds =>
        refine Or.inr (Or.inl ⟨key, Value.str t, rest, i + 1, ?_, ?_,
          le_refl _, Or.inl rfl, Or.inr ⟨rfl, rfl, ⟨Arg.valueNumberFlag n d ds, rfl⟩⟩⟩)
        · rw [List.get?_eq_getElem?] at hg
          simp [parseLoop, ht', hg]
        · rw [List.get?_eq_getElem?] at hg
          simp [parseLoop, ht', hg]

/-! ### Invariants of the scanning loop -/

theorem parseLoop_mono_aux (E P : List (String × Arg)) :
    ∀ (n : Nat) (l : List String), l.length ≤ n →
      ∀ (p : ParsedArgs) (i : Nat) (r : ParsedArgs) (i' : Nat),
        parseLoop E P l p i = Except.ok (r, i') → i ≤ i' := by
  intro n
  induction n with
  | zero =>
    intro l hl p i r i' h
    have hl0 : l = [] := List.eq_nil_of_length_eq_zero (Nat.le_zero.mp hl)
    subst hl0
    rw [parseLoop_nil] at h
    simp only [Except.ok.injEq, Prod.mk.injEq] at h
    omega
  | succ n ih =>
    intro l hl p i r i' h
    cases l with
    | nil =>
      rw [parseLoop_nil] at h
      simp only [Except.ok.injEq, Prod.mk.injEq] at h
      omega
    | cons t rest =>
      have hrest : rest.length ≤ n := by
        simp only [List.length_cons] at hl
        omega
      rcases parseLoop_step2 E P t rest p p i with
        ⟨e, he, _⟩ | ⟨k, v, rest', j, hp, _, hlen, _, hj⟩ | ⟨hp, _⟩
      · rw [he] at h
        simp at h
      · rw [hp] at h
        have hji : j ≤ i' := ih rest' (le_trans hlen hrest) _ _ _ _ h
        rcases hj with ⟨hj1, _⟩ | ⟨hj1, _⟩ <;> omega
      · rw [hp] at h
        exact ih rest hrest _ _ _ _ h

theorem parseLoop_mono (E P : List (String × Arg)) (l : List String)
    (p : ParsedArgs) (i : Nat) (r : ParsedArgs) (i' : Nat)
    (h : parseLoop E P l p i = Except.ok (r, i')) : i ≤ i' :=
  parseLoop_mono_aux E P l.length l (le_refl _) p i r i' h

theorem parseLoop_bound_aux (E P : List (String × Arg)) :
    ∀ (n : Nat) (l : List String), l.length ≤ n →
      ∀ (p : ParsedArgs) (i : Nat) (r : ParsedArgs) (i' : Nat),
        parseLoop E P l p i = Except.ok (r, i') → i' ≤ i + l.length := by
  intro n
  induction n with
  | zero =>
    intro l hl p i r i' h
    have hl0 : l = [] := List.eq_nil_of_length_eq_zero (Nat.le_zero.mp hl)
    subst hl0
    rw [parseLoop_nil] at h
    simp only [Except.ok.injEq, Prod.mk.injEq] at h
    simp
    omega
  | succ n ih =>
    intro l hl p i r i' h
    cases l with
    | nil =>
      rw [parseLoop_nil] at h
      simp only [Except.ok.injEq, Prod.mk.injEq] at h
      simp
      omega
    | cons t rest =>
      have hrest : rest.length ≤ n := by
        simp only [List.length_cons] at hl
        omega
      rcases parseLoop_step2 E P t rest p p i with
        ⟨e, he, _⟩ | ⟨k, v, rest', j, hp, _, hlen, _, hj⟩ | ⟨hp, _⟩
      · rw [he] at h
        simp at h
      · rw [hp] at h
        have hb : i' ≤ j + rest'.length := ih rest' (le_trans hlen hrest) _ _ _ _ h
        simp only [List.length_cons]
        rcases hj with ⟨hj1, _⟩ | ⟨hj1, hr, _⟩
        · omega
        · subst hr
          omega
      · rw [hp] at h
        have hb : i' ≤ i + rest.length := ih rest hrest _ _ _ _ h
        simp only [List.length_cons]
        omega

theorem parseLoop_bound (E P : List (String × Arg)) (l : List String)
    (p : ParsedArgs) (i : Nat) (r : ParsedArgs) (i' : Nat)
    (h : parseLoop E P l p i = Except.ok (r, i')) : i' ≤ i + l.length :=
  parseLoop_bound_aux E P l.length l (le_refl _) p i r i' h

/-- A positional key whose slot lies at or beyond the final positional index
is never written by the scanning loop: flag paths only write keys of
non-positional entries (distinct by key-uniqueness), and positional paths
only write slots below the final index. -/
theorem parseLoop_unset_aux (E P : List (String × Arg))
    (hnd : (E.map Prod.fst).Nodup)
    (hsub : ∀ e ∈ P, e ∈ E ∧ e.2.isPositional = true)
    (hndP : (P.map Prod.fst).Nodup) :
    ∀ (n : Nat) (l : List String), l.length ≤ n →
      ∀ (p : ParsedArgs) (i : Nat) (r : ParsedArgs) (i' : Nat),
        parseLoop E P l p i = Except.ok (r, i') →
        ∀ (jt : Nat) (kt : String) (bt : Arg),
          P.get? jt = some (kt, bt) → i' ≤ jt → getArg r kt = getArg p kt := by
  intro n
  induction n with
  | zero =>
    intro l hl p i r i' h jt kt bt hjt hle
    have hl0 : l = [] := List.eq_nil_of_length_eq_zero (Nat.le_zero.mp hl)
    subst hl0
    rw [parseLoop_nil] at h
    simp only [Except.ok.injEq, Prod.mk.injEq] at h
    rw [← h.1]
  | succ n ih =>
    intro l hl p i r i' h jt kt bt hjt hle
    cases l with
    | nil =>
      rw [parseLoop_nil] at h
      simp only [Except.ok.injEq, Prod.mk.injEq] at h
      rw [← h.1]
    | cons t rest =>
      have hrest : rest.length ≤ n := by
        simp only [List.length_cons] at hl
        omega
      have hktP : (kt, bt) ∈ P := by
        have := List.get?_mem hjt
        exact this
      have hktE : (kt, bt) ∈ E ∧ bt.isPositional = true := hsub _ hktP
      rcases parseLoop_step2 E P t rest p p i with
        ⟨e, he, _⟩ | ⟨k, v, rest', j, hp, _, hlen, _, hj⟩ | ⟨hp, _⟩
      · rw [he] at h
        simp at h
      · rw [hp] at h
        have htail : getArg r kt = getArg (setArg p k v) kt :=
          ih rest' (le_trans hlen hrest) _ _ _ _ h jt kt bt hjt hle
        have hkne : kt ≠ k := by
          rcases hj with ⟨_, a, hfa, hanp⟩ | ⟨hj1, _, a, hga⟩
          · intro hkk
            subst hkk
            have hmem : (kt, a) ∈ E := by
              have := List.find?_some hfa
              exact List.mem_of_find?_eq_some hfa
            have : bt = a := mem_unique_of_nodup_keys hnd hktE.1 hmem
            rw [← this, hktE.2] at hanp
            simp at hanp
          · intro hkk
            subst hkk
            have hji : j ≤ i' := parseLoop_mono E P _ _ _ _ _ h
            have hij : i ≠ jt := by omega
            have h1 : (P.map Prod.fst).get? i = some kt := by
              rw [List.get?_map, hga]
              rfl
            have h2 : (P.map Prod.fst).get? jt = some kt := by
              rw [List.get?_map, hjt]
              rfl
            have hilen : i < (P.map Prod.fst).length := by
              have := List.get?_eq_some.mp h1
              exact this.1
            exact hij (List.get?_inj hilen hndP (h1.trans h2.symm))
        rw [htail, getArg_setArg_ne _ _ _ _ hkne]
      · rw [hp] at h
        exact ih rest hrest _ _ _ _ h jt kt bt hjt hle

/-- Relation between two runs of the scanning loop from records that agree
everywhere except possibly at one key. -/
def exceptRel (key : String) :
    Except ParseError (ParsedArgs × Nat) → Except ParseError (ParsedArgs × Nat) → Prop
  | Except.error e1, Except.error e2 => e1 = e2
  | Except.ok (p1, i1), Except.ok (p2, i2) =>
      i1 = i2 ∧ ∀ k, k ≠ key → getArg p1 k = getArg p2 k
  | _, _ => False

theorem parseLoop_congr_aux (E P : List (String × Arg)) (key : String) :
    ∀ (n : Nat) (l : List String), l.length ≤ n →
      ∀ (p q : ParsedArgs) (i : Nat),
        (∀ k, k ≠ key → getArg p k = getArg q k) →
        exceptRel key (parseLoop E P l p i) (parseLoop E P l q i) := by
  intro n
  induction n with
  | zero =>
    intro l hl p q i hpq
    have hl0 : l = [] := List.eq_nil_of_length_eq_zero (Nat.le_zero.mp hl)
    subst hl0
    rw [parseLoop_nil, parseLoop_nil]
    exact ⟨rfl, hpq⟩
  | succ n ih =>
    intro l hl p q i hpq
    cases l with
    | nil =>
      rw [parseLoop_nil, parseLoop_nil]
      exact ⟨rfl, hpq⟩
    | cons t rest =>
      have hrest : rest.length ≤ n := by
        simp only [List.length_cons] at hl
        omega
      rcases parseLoop_step2 E P t rest p q i with
        ⟨e, hep, heq⟩ | ⟨k, v, rest', j, hp, hq, hlen, _, _⟩ | ⟨hp, hq⟩
      · rw [hep, heq]
        exact rfl
      · rw [hp, hq]
        apply ih rest' (le_trans hlen hrest)
        intro k' hk'
        rw [getArg_setArg, getArg_setArg]
        by_cases hkk : k' = k
        · simp [hkk]
        · simp [hkk, hpq k' hk']
      · rw [hp, hq]
        exact ih rest hrest _ _ _ hpq

theorem parseLoop_cons_plain_other (E P : List (String × Arg))
    {t key : String} {a : Arg} {i : Nat}
    (h1 : strStartsWith t "--" = false)
    (h2 : P.get? i = some (key, a))
    (h3 : ∀ n2 d2 ds2, a ≠ Arg.positionalNumber n2 d2 ds2)
    (rest : List String) (p : ParsedArgs) :
    parseLoop E P (t :: rest) p i =
      parseLoop E P rest (setArg p key (Value.str t)) (i + 1) := by
  cases a <;>
    first
      | exact absurd rfl (h3 _ _ _)
      | (rw [List.get?_eq_getElem?] at h2
         simp [parseLoop, h1, h2])

/-- A token list made of plain tokens and (resolvable) boolean flag tokens
only, as a decidable check. -/
def onlyBoolFlagTokens (E : List (String × Arg)) (l : List String) : Bool :=
  l.all (fun t => !(strStartsWith t "--") ||
    (match findFlagEntry E (strDrop t 2) with
     | some (_, Arg.flag _ _) => true
     | _ => false))

theorem onlyBoolFlagTokens_spec {E : List (String × Arg)} {l : List String}
    (h : onlyBoolFlagTokens E l = true) :
    ∀ t ∈ l, strStartsWith t "--" = true →
      ∃ k2 n2 d2, findFlagEntry E (strDrop t 2) = some (k2, Arg.flag n2 d2) := by
  intro t ht htt
  have := (List.all_eq_true.mp h) t ht
  rw [htt] at this
  simp only [Bool.not_true, Bool.false_or] at this
  cases hfind : findFlagEntry E (strDrop t 2) with
  | none => rw [hfind] at this; simp at this
  | some ka =>
    obtain ⟨k2, a2⟩ := ka
    rw [hfind] at this
    cases a2 with
    | flag n2 d2 => exact ⟨k2, n2, d2, rfl⟩
    | positionalString n2 d2 ds2 => simp at this
    | positionalNumber n2 d2 ds2 => simp at this
    | valueStringFlag n2 d2 ds2 => simp at this
    | valueNumberFlag n2 d2 ds2 => simp at this

/-- Moving a boolean flag token to the front across plain and boolean-flag
tokens leaves the scanning loop's result unchanged, provided the flag's key
is already present in the record (it always is: flags are pre-seeded). -/
theorem parseLoop_flag_move (E P : List (String × Arg))
    (hnd : (E.map Prod.fst).Nodup)
    (hsub : ∀ e ∈ P, e ∈ E ∧ e.2.isPositional = true)
    {ftok f key n d : String}
    (hftok1 : strStartsWith ftok "--" = true) (hftok2 : strDrop ftok 2 = f)
    (hf : findFlagEntry E f = some (key, Arg.flag n d)) :
    ∀ (xs : List String),
      (∀ t ∈ xs, strStartsWith t "--" = true →
        ∃ k2 n2 d2, findFlagEntry E (strDrop t 2) = some (k2, Arg.flag n2 d2)) →
      ∀ (ys : List String) (p : ParsedArgs) (i : Nat), (getArg p key).isSome →
        parseLoop E P (xs ++ ftok :: ys) p i =
          parseLoop E P (ftok :: (xs ++ ys)) p i := by
  have hf' : findFlagEntry E (strDrop ftok 2) = some (key, Arg.flag n d) := by
    rw [hftok2]
    exact hf
  intro xs
  induction xs with
  | nil => intro _ ys p i _; rfl
  | cons t xs' ih =>
    intro hx ys p i hkey
    have hx' : ∀ t' ∈ xs', strStartsWith t' "--" = true →
        ∃ k2 n2 d2, findFlagEntry E (strDrop t' 2) = some (k2, Arg.flag n2 d2) :=
      fun t' ht' => hx t' (List.mem_cons_of_mem _ ht')
    simp only [List.cons_append]
    rw [parseLoop_cons_boolflag E P hftok1 hf' (t :: (xs' ++ ys)) p i]
    by_cases htt : strStartsWith t "--" = true
    · obtain ⟨k2, n2, d2, hfind2⟩ := hx t (List.mem_cons_self _ _) htt
      rw [parseLoop_cons_boolflag E P htt hfind2 (xs' ++ ftok :: ys) p i,
        parseLoop_cons_boolflag E P htt hfind2 (xs' ++ ys)
          (setArg p key (Value.bool true)) i,
        ih hx' ys (setArg p k2 (Value.bool true)) i
          (getArg_setArg_isSome p key k2 (Value.bool true) hkey),
        parseLoop_cons_boolflag E P hftok1 hf' (xs' ++ ys)
          (setArg p k2 (Value.bool true)) i]
      by_cases hkk : key = k2
      · rw [hkk]
      · rw [setArg_comm p key k2 (Value.bool true) (Value.bool true) hkey hkk]
    · have htf : strStartsWith t "--" = false := by
        cases h : strStartsWith t "--"
        · rfl
        · exact absurd h htt
      cases hg : P.get? i with
      | none =>
        rw [parseLoop_cons_plain_none E P htf hg (xs' ++ ftok :: ys) p,
          parseLoop_cons_plain_none E P htf hg (xs' ++ ys)
            (setArg p key (Value.bool true)),
          ih hx' ys p i hkey,
          parseLoop_cons_boolflag E P hftok1 hf' (xs' ++ ys) p i]
      | some ka =>
        obtain ⟨k2, a2⟩ := ka
        have hk2mem : (k2, a2) ∈ P := List.get?_mem hg
        have hk2E : (k2, a2) ∈ E ∧ a2.isPositional = true := hsub _ hk2mem
        have hkeyE : (key, Arg.flag n d) ∈ E := List.mem_of_find?_eq_some hf
        have hne : key ≠ k2 := by
          intro hkk
          subst hkk
          have : Arg.flag n d = a2 := mem_unique_of_nodup_keys hnd hkeyE hk2E.1
          rw [← this] at hk2E
          simp [Arg.isPositional] at hk2E
        cases a2 with
        | positionalNumber n2 d2 ds2 =>
          cases hjs : jsNumber t with
          | none =>
            rw [parseLoop_cons_plain_posNumber_err E P htf hg hjs (xs' ++ ftok :: ys) p,
              parseLoop_cons_plain_posNumber_err E P htf hg hjs (xs' ++ ys)
                (setArg p key (Value.bool true))]
          | some m =>
            rw [parseLoop_cons_plain_posNumber_ok E P htf hg hjs (xs' ++ ftok :: ys) p,
              parseLoop_cons_plain_posNumber_ok E P htf hg hjs (xs' ++ ys)
                (setArg p key (Value.bool true)),
              ih hx' ys (setArg p k2 (Value.num m)) (i + 1)
                (getArg_setArg_isSome p key k2 (Value.num m) hkey),
              parseLoop_cons_boolflag E P hftok1 hf' (xs' ++ ys)
                (setArg p k2 (Value.num m)) (i + 1),
              setArg_comm p key k2 (Value.bool true) (Value.num m) hkey hne]
        | positionalString n2 d2 ds2 =>
          rw [parseLoop_cons_plain_posString E P htf hg (xs' ++ ftok :: ys) p,
            parseLoop_cons_plain_posString E P htf hg (xs' ++ ys)
              (setArg p key (Value.bool true)),
            ih hx' ys (setArg p k2 (Value.str t)) (i + 1)
              (getArg_setArg_isSome p key k2 (Value.str t) hkey),
            parseLoop_cons_boolflag E P hftok1 hf' (xs' ++ ys)
              (setArg p k2 (Value.str t)) (i + 1),
            setArg_comm p key k2 (Value.bool true) (Value.str t) hkey hne]
        | flag n2 d2 => simp [Arg.isPositional] at hk2E
        | valueStringFlag n2 d2 ds2 => simp [Arg.isPositional] at hk2E
        | valueNumberFlag n2 d2 ds2 => simp [Arg.isPositional] at hk2E

/-- Once the raw token list contains a token of the form `--x` with `x`
unknown to the schema, the scanning loop necessarily fails: the token cannot
be consumed as a flag value (values must not start with `--`) nor as a
positional, so the scan either dies earlier or reaches it and dies there. -/
theorem parseLoop_unknown_reached_aux (E P : List (String × Arg))
    {tok : String}
    (htok : strStartsWith tok "--" = true)
    (hunk : findFlagEntry E (strDrop tok 2) = none) :
    ∀ (n : Nat) (pre : List String), pre.length ≤ n →
      ∀ (suf : List String) (p : ParsedArgs) (i : Nat),
        ∃ e, parseLoop E P (pre ++ tok :: suf) p i = Except.error e := by
  intro n
  induction n with
  | zero =>
    intro pre hl suf p i
    have hl0 : pre = [] := List.eq_nil_of_length_eq_zero (Nat.le_zero.mp hl)
    subst hl0
    exact ⟨ParseError.unknownFlag (strDrop tok 2),
      parseLoop_cons_unknown E P htok hunk suf p i⟩
  | succ n ih =>
    intro pre hl suf p i
    cases pre with
    | nil =>
      exact ⟨ParseError.unknownFlag (strDrop tok 2),
        parseLoop_cons_unknown E P htok hunk suf p i⟩
    | cons t rest =>
      have hrest : rest.length ≤ n := by
        simp only [List.length_cons] at hl
        omega
      simp only [List.cons_append]
      rcases parseLoop_step2 E P t (rest ++ tok :: suf) p p i with
        ⟨e, he, _⟩ | ⟨k, v, rest', j, hp, _, hlen, hv0, _⟩ | ⟨hp, _⟩
      · exact ⟨e, he⟩
      · rcases hv0 with hv1 | ⟨v0, rest2, hv1, hv2, hv3⟩
        · subst hv1
          obtain ⟨e, he⟩ := ih rest hrest suf (setArg p k v) j
          exact ⟨e, by rw [hp]; exact he⟩
        · cases rest with
          | nil =>
            exfalso
            simp only [List.nil_append] at hv1
            have : tok = v0 := (List.cons.injEq _ _ _ _ ▸ hv1).1
            rw [← this, htok] at hv3
            exact Bool.noConfusion hv3
          | cons t2 rest3 =>
            have : t2 = v0 ∧ rest3 ++ tok :: suf = rest2 := by
              simp only [List.cons_append] at hv1
              exact ⟨(List.cons.injEq _ _ _ _ ▸ hv1).1, (List.cons.injEq _ _ _ _ ▸ hv1).2⟩
            obtain ⟨e, he⟩ := ih rest3 (by simp only [List.length_cons] at hl hrest; omega)
              suf (setArg p k v) j
            refine ⟨e, ?_⟩
            rw [hp, hv2, ← this.2]
            exact he
      · obtain ⟨e, he⟩ := ih rest hrest suf p i
        exact ⟨e, by rw [hp]; exact he⟩

/-! ### Assembly helpers -/

theorem find?_congr_of_eq {α : Type} (p q : α → Bool) (l : List α)
    (h : ∀ a ∈ l, p a = q a) : l.find? p = l.find? q := by
  induction l with
  | nil => rfl
  | cons hd tl ih =>
    rw [List.find?_cons, List.find?_cons, h hd (List.mem_cons_self _ _)]
    cases q hd with
    | true => rfl
    | false => exact ih (fun a ha => h a (List.mem_cons_of_mem _ ha))

theorem parseArgs_of_loop_error {entries : List (String × Arg)}
    {rawArgs : List String} {e : ParseError}
    (h : parseLoop entries (positionalsOf entries) rawArgs (seedDefaults entries) 0 =
      Except.error e) :
    parseArgs rawArgs (some entries) = Except.error e := by
  simp [parseArgs, h]

theorem seedValue_none_of_required {a : Arg}
    (hreq : a.hasDefault = false) (hpos : a.isPositional = true) :
    a.seedValue = none := by
  cases a <;> simp_all [Arg.hasDefault, Arg.isPositional, Arg.seedValue]

/-- When the scan ends normally but some required positional field is still
unset, `parseArgs` reports the first such field as missing. -/
theorem parseArgs_missing_of_unset {entries : List (String × Arg)}
    {rawArgs : List String} {r : ParsedArgs} {i' : Nat} {k : String} {a : Arg}
    (hloop : parseLoop entries (positionalsOf entries) rawArgs (seedDefaults entries) 0 =
      Except.ok (r, i'))
    (hmem : (k, a) ∈ positionalsOf entries)
    (hreq : a.hasDefault = false)
    (hunset : getArg r k = none) :
    ∃ k' a', (k', a') ∈ positionalsOf entries ∧ a'.hasDefault = false ∧
      getArg r k' = none ∧
      parseArgs rawArgs (some entries) =
        Except.error (ParseError.missingRequired a'.name) := by
  have hsome : (firstMissingRequired (positionalsOf entries) r).isSome := by
    rw [firstMissingRequired, List.find?_isSome]
    refine ⟨(k, a), hmem, ?_⟩
    simp [hreq, hunset]
  obtain ⟨ka0, h0⟩ := Option.isSome_iff_exists.mp hsome
  obtain ⟨k0, a0⟩ := ka0
  have hpred := List.find?_some h0
  simp only [Bool.and_eq_true, Bool.not_eq_true', Option.isNone_iff_eq_none] at hpred
  refine ⟨k0, a0, List.mem_of_find?_eq_some h0, hpred.1, hpred.2, ?_⟩
  simp [parseArgs, hloop, h0]

theorem runCmd_of_parse_error {cmds : List (String × Cmd)} {cmd cmdId : String}
    {c : Cmd} {args : List String} {e : ParseError}
    (hfind : cmds.find? (cmdMatches cmd) = some (cmdId, c))
    (hh1 : args.contains "-h" = false) (hh2 : args.contains "--help" = false)
    (hparse : parseArgs args c.args = Except.error e) :
    runCmd cmds cmd args = CmdOutcome.parseFailed e := by
  simp only [runCmd, hfind]
  rw [hh1, hh2]
  simp [hparse]

/-! ### Concrete registries used by the literal scenarios and witnesses -/

/-- The registry of spec scenario 5:
`{create:{schema:{name: positional-string no default, template:
value-string-flag default "basic"}}}`. -/
def createRegistry : List (String × Cmd) :=
  [("create",
    { short := none, description := "Create a project",
      args := some
        [("name", Arg.positionalString "name" none "Project name"),
         ("template", Arg.valueStringFlag "template" (some "basic") "Template")] })]

/-- The schema of spec scenarios 3 and 4:
`{port: positional-number no default, timeout: value-number-flag}`. -/
def serverEntries : List (String × Arg) :=
  [("port", Arg.positionalNumber "port" none "Port number"),
   ("timeout", Arg.valueNumberFlag "timeout" none "Request timeout")]

/-- The registry of spec scenarios 3 and 4. -/
def serverRegistry : List (String × Cmd) :=
  [("server", { short := none, description := "Start a server", args := some serverEntries })]

/-- A one-field schema with a single required value-string-flag. -/
def templateEntries : List (String × Arg) :=
  [("template", Arg.valueStringFlag "template" none "Template")]

/-- A two-command registry declared in the order bravo, alpha. -/
def cmdsBA : List (String × Cmd) :=
  [("bravo", { short := none, description := "B", args := none }),
   ("alpha", { short := none, description := "A", args := none })]

/-- A registry with a duplicated short alias. -/
def dupShortCmds : List (String × Cmd) :=
  [("one", { short := some "o", description := "First", args := none }),
   ("two", { short := some "o", description := "Second", args := none })]

/-- A schema with two positionals separated by a boolean flag in declaration
order: first, second, verbose. -/
def orderEntries : List (String × Arg) :=
  [("first", Arg.positionalString "first" none "First argument"),
   ("second", Arg.positionalNumber "second" none "Second argument"),
   ("verbose", Arg.flag "verbose" "Enable verbose output")]

/-! ### Claims -/

/-- C5: for the registry `{create: {schema: {name: positional-string with no
default, template: value-string-flag with default "basic"}}}` and invocation
`["create","my-app"]`, the parser seeds the defaulted `template` field and
assigns the positional token, so the handler receives exactly
`{name: "my-app", template: "basic"}` and the process exits with status 0. -/
theorem claim_C5 :
    runCmd createRegistry "create" ["my-app"] =
      CmdOutcome.ran "create"
        [("template", Value.str "basic"), ("name", Value.str "my-app")] ∧
    (∃ r, runCmd createRegistry "create" ["my-app"] = CmdOutcome.ran "create" r ∧
      getArg r "name" = some (Value.str "my-app") ∧
      getArg r "template" = some (Value.str "basic") ∧
      ∀ k, k ≠ "name" → k ≠ "template" → getArg r k = none) ∧
    CmdOutcome.exitCode (runCmd createRegistry "create" ["my-app"]) = 0 := by
  refine ⟨by decide,
    ⟨[("template", Value.str "basic"), ("name", Value.str "my-app")],
      by decide, by decide, by decide, ?_⟩, by decide⟩
  intro k h1 h2
  simp [getArg, Ne.symm h1, Ne.symm h2]

/-- C9: for the registry `{server: {schema: {port: positional-number no
default, timeout: value-number-flag}}}`, the invocation `["server","abc"]`
fails with `Invalid number "abc" for port` and exit status 1, and the
invocation `["server","3000","--timeout","invalid"]` fails with
`Invalid number "invalid" for --timeout` and exit status 1; in both cases the
handler is never invoked. -/
theorem claim_C9 :
    runCmd serverRegistry "server" ["abc"] =
      CmdOutcome.parseFailed (ParseError.invalidNumberPositional "abc" "port") ∧
    (ParseError.invalidNumberPositional "abc" "port").message =
      "Error: Invalid number \"abc\" for port" ∧
    CmdOutcome.exitCode (runCmd serverRegistry "server" ["abc"]) = 1 ∧
    runCmd serverRegistry "server" ["3000", "--timeout", "invalid"] =
      CmdOutcome.parseFailed (ParseError.invalidNumberFlag "invalid" "timeout") ∧
    (ParseError.invalidNumberFlag "invalid" "timeout").message =
      "Error: Invalid number \"invalid\" for --timeout" ∧
    CmdOutcome.exitCode
      (runCmd serverRegistry "server" ["3000", "--timeout", "invalid"]) = 1 ∧
    (∀ cid r, runCmd serverRegistry "server" ["abc"] ≠ CmdOutcome.ran cid r) ∧
    (∀ cid r, runCmd serverRegistry "server" ["3000", "--timeout", "invalid"] ≠
      CmdOutcome.ran cid r) := by
  refine ⟨by decide, by decide, by decide, by decide, by decide, by decide, ?_, ?_⟩
  · intro cid r h
    rw [show runCmd serverRegistry "server" ["abc"] =
      CmdOutcome.parseFailed (ParseError.invalidNumberPositional "abc" "port")
      from by decide] at h
    exact CmdOutcome.noConfusion h
  · intro cid r h
    rw [show runCmd serverRegistry "server" ["3000", "--timeout", "invalid"] =
      CmdOutcome.parseFailed (ParseError.invalidNumberFlag "invalid" "timeout")
      from by decide] at h
    exact CmdOutcome.noConfusion h

/-- C2 counterexample: with the registry declared in the order bravo, alpha
and the explicit sort list `["alpha","bravo"]`, the top-level help still
lists bravo first (registry insertion order), not the sort order the claim
demands: `printHelp` never consults the sort list. -/
theorem claim_C2_counterexample :
    printHelpCmdLines cmdsBA (some ["alpha", "bravo"]) ≠
      specHelpCmdLines cmdsBA (some ["alpha", "bravo"]) ∧
    printHelpCmdLines cmdsBA (some ["alpha", "bravo"]) = ["bravo -> B", "alpha -> A"] ∧
    specHelpCmdLines cmdsBA (some ["alpha", "bravo"]) = ["alpha -> A", "bravo -> B"] := by
  refine ⟨by decide, by decide, by decide⟩

/-- C2 (amended): the top-level help lists the registered commands in
registry insertion (declaration) order whether or not an explicit sort list
is provided — the sort list does not affect the top-level help (it only
orders the interactive-mode menu); when no sort list is provided this
coincides with the order the spec demands. -/
theorem claim_C2 :
    ∀ (cmds : List (String × Cmd)) (sortList : Option (List String)),
      printHelpCmdLines cmds sortList = printHelpCmdLines cmds none ∧
      printHelpCmdLines cmds sortList =
        cmds.map (helpCmdLine (largestCmdTextLength cmds)) ∧
      specHelpCmdLines cmds none = printHelpCmdLines cmds none := by
  intro cmds sortList
  cases sortList <;> exact ⟨rfl, rfl, rfl⟩

/-- C3 counterexample: the claim says a value flag followed by the empty
string consumes it as the value and raises no missing-value error, but the
source's truthiness test `value && !value.startsWith('--')` treats the empty
string as absent: `["--template", ""]` fails with
`Missing value for --template`. -/
theorem claim_C3_counterexample :
    parseArgs ["--template", ""] (some templateEntries) =
      Except.error (ParseError.missingValue "template") ∧
    "" ≠ "--template" ∧ (strStartsWith "" "--") = false := by
  refine ⟨by decide, by decide, by decide⟩

/-- C3 (amended): for a value-carrying flag token `--X`, the scan at that
token fails with "Missing value for --X" if and only if the next token is
absent, is the empty string, or starts with `--`; for any other next token
the value is consumed with no missing-value error at that step (the
number-valued variant may still reject it as an invalid number). -/
theorem claim_C3 (E P : List (String × Arg)) (tok x key : String) (argDef : Arg)
    (htok1 : strStartsWith tok "--" = true) (htok2 : strDrop tok 2 = x)
    (hf : findFlagEntry E x = some (key, argDef))
    (hv : argDef.isValueFlag = true) :
    ∀ (rest : List String) (p : ParsedArgs) (i : Nat),
      (rest = [] → parseLoop E P (tok :: rest) p i =
        Except.error (ParseError.missingValue argDef.name)) ∧
      (∀ value rest2, rest = value :: rest2 →
        (value = "" ∨ strStartsWith value "--" = true) →
        parseLoop E P (tok :: rest) p i =
          Except.error (ParseError.missingValue argDef.name)) ∧
      (∀ value rest2, rest = value :: rest2 → value ≠ "" →
        strStartsWith value "--" = false →
        parseLoop E P (tok :: rest) p i =
          (match argDef with
           | Arg.valueNumberFlag n _ _ =>
             (match jsNumber value with
              | none => Except.error (ParseError.invalidNumberFlag value n)
              | some m => parseLoop E P rest2 (setArg p key (Value.num m)) i)
           | _ => parseLoop E P rest2 (setArg p key (Value.str value)) i)) ∧
      (ParseError.missingValue argDef.name).message =
        "Error: Missing value for --" ++ argDef.name := by
  have hf' : findFlagEntry E (strDrop tok 2) = some (key, argDef) := by
    rw [htok2]
    exact hf
  intro rest p i
  cases argDef with
  | valueStringFlag n d ds =>
    refine ⟨?_, ?_, ?_, rfl⟩
    · intro hr
      subst hr
      rw [parseLoop_cons_valueString E P htok1 hf' [] p i]
      rfl
    · intro value rest2 hr hbad
      subst hr
      rw [parseLoop_cons_valueString E P htok1 hf' (value :: rest2) p i]
      have hcnd : ¬(value ≠ "" ∧ strStartsWith value "--" = false) := by
        rcases hbad with h | h
        · intro hc
          exact hc.1 h
        · intro hc
          rw [h] at hc
          exact Bool.noConfusion hc.2
      simp [hcnd, Arg.name]
    · intro value rest2 hr hne hsw
      subst hr
      rw [parseLoop_cons_valueString E P htok1 hf' (value :: rest2) p i]
      simp [hne, hsw]
  | valueNumberFlag n d ds =>
    refine ⟨?_, ?_, ?_, rfl⟩
    · intro hr
      subst hr
      rw [parseLoop_cons_valueNumber E P htok1 hf' [] p i]
      rfl
    · intro value rest2 hr hbad
      subst hr
      rw [parseLoop_cons_valueNumber E P htok1 hf' (value :: rest2) p i]
      have hcnd : ¬(value ≠ "" ∧ strStartsWith value "--" = false) := by
        rcases hbad with h | h
        · intro hc
          exact hc.1 h
        · intro hc
          rw [h] at hc
          exact Bool.noConfusion hc.2
      simp [hcnd, Arg.name]
    · intro value rest2 hr hne hsw
      subst hr
      rw [parseLoop_cons_valueNumber E P htok1 hf' (value :: rest2) p i]
      cases hjs : jsNumber value with
      | none => simp [hne, hsw, hjs]
      | some m => simp [hne, hsw, hjs]
  | flag n d => simp [Arg.isValueFlag] at hv
  | positionalString n d ds => simp [Arg.isValueFlag] at hv
  | positionalNumber n d ds => simp [Arg.isValueFlag] at hv

/-- C3 witness: the amended theorem applied to the concrete one-flag schema,
at the concrete raw vector `["--template"]`. -/
theorem claim_C3_witness :
    (strStartsWith "--template" "--" = true) ∧
    (strDrop "--template" 2 = "template") ∧
    (findFlagEntry templateEntries "template" =
      some ("template", Arg.valueStringFlag "template" none "Template")) ∧
    ((Arg.valueStringFlag "template" none "Template").isValueFlag = true) ∧
    parseLoop templateEntries [] ["--template"] [] 0 =
      Except.error (ParseError.missingValue "template") :=
  ⟨by decide, by decide, by decide, by decide,
    (claim_C3 templateEntries [] "--template" "template" "template"
      (Arg.valueStringFlag "template" none "Template")
      (by decide) (by decide) (by decide) (by decide) [] [] 0).1 rfl⟩

/-- A one-field schema with a single required positional. -/
def nameOnlyEntries : List (String × Arg) :=
  [("name", Arg.positionalString "name" none "The name")]

/-- C7: for every raw token of the form `--x` where `x` is not the `name` of
any argument in the schema, the scan fails at that token with
"Unknown flag --x"; consequently any raw vector containing such a token
parses to an error, and dispatching it (outside the `-h`/`--help` shortcut)
exits with status 1 without invoking the handler. -/
theorem claim_C7 (E : List (String × Arg)) (tok x : String)
    (htok1 : strStartsWith tok "--" = true) (htok2 : strDrop tok 2 = x)
    (hunk : ∀ e ∈ E, e.2.name ≠ x) :
    (∀ (P : List (String × Arg)) (rest : List String) (p : ParsedArgs) (i : Nat),
      parseLoop E P (tok :: rest) p i = Except.error (ParseError.unknownFlag x)) ∧
    (∀ (pre suf : List String),
      ∃ e, parseArgs (pre ++ tok :: suf) (some E) = Except.error e) ∧
    (ParseError.unknownFlag x).message = "Error: Unknown flag --" ++ x ∧
    (∀ (cmds : List (String × Cmd)) (cmd cmdId : String) (c : Cmd)
        (pre suf : List String),
      cmds.find? (cmdMatches cmd) = some (cmdId, c) → c.args = some E →
      (pre ++ tok :: suf).contains "-h" = false →
      (pre ++ tok :: suf).contains "--help" = false →
      CmdOutcome.exitCode (runCmd cmds cmd (pre ++ tok :: suf)) = 1 ∧
      ∀ cid r, runCmd cmds cmd (pre ++ tok :: suf) ≠ CmdOutcome.ran cid r) := by
  have hfind : findFlagEntry E x = none := by
    rw [findFlagEntry, List.find?_eq_none]
    intro e he
    simp only [beq_iff_eq]
    exact hunk e he
  have hfind' : findFlagEntry E (strDrop tok 2) = none := by
    rw [htok2]
    exact hfind
  have hglobal : ∀ (pre suf : List String),
      ∃ e, parseArgs (pre ++ tok :: suf) (some E) = Except.error e := by
    intro pre suf
    obtain ⟨e, he⟩ := parseLoop_unknown_reached_aux E (positionalsOf E) htok1 hfind'
      pre.length pre (le_refl _) suf (seedDefaults E) 0
    exact ⟨e, parseArgs_of_loop_error he⟩
  refine ⟨?_, hglobal, rfl, ?_⟩
  · intro P rest p i
    rw [parseLoop_cons_unknown E P htok1 hfind' rest p i, htok2]
  · intro cmds cmd cmdId c pre suf hfind2 hargs hh1 hh2
    obtain ⟨e, he⟩ := hglobal pre suf
    have hrun : runCmd cmds cmd (pre ++ tok :: suf) = CmdOutcome.parseFailed e :=
      runCmd_of_parse_error hfind2 hh1 hh2 (by rw [hargs]; exact he)
    refine ⟨by rw [hrun]; rfl, ?_⟩
    intro cid r hcon
    rw [hrun] at hcon
    exact CmdOutcome.noConfusion hcon

/-- C7 witness: the theorem applied to the server schema and the unknown
token `--bogus`. -/
theorem claim_C7_witness :
    (strStartsWith "--bogus" "--" = true) ∧
    (strDrop "--bogus" 2 = "bogus") ∧
    (∀ e ∈ serverEntries, e.2.name ≠ "bogus") ∧
    parseLoop serverEntries (positionalsOf serverEntries) ["--bogus"]
      (seedDefaults serverEntries) 0 =
      Except.error (ParseError.unknownFlag "bogus") :=
  ⟨by decide, by decide, by decide,
    (claim_C7 serverEntries "--bogus" "bogus" (by decide) (by decide) (by decide)).1
      (positionalsOf serverEntries) [] (seedDefaults serverEntries) 0⟩

/-- C10 (implicit): a token `--x` whose name resolves to a positional entry
of the schema is consumed silently — no error, no field assignment, no
positional-index advance; and when that positional has no default and the
raw vector is just that token, the parse then fails with a
"Missing required argument" error rather than any error about `--x`
itself. -/
theorem claim_C10 (E : List (String × Arg)) (tok x key : String) (argDef : Arg)
    (htok1 : strStartsWith tok "--" = true) (htok2 : strDrop tok 2 = x)
    (hf : findFlagEntry E x = some (key, argDef))
    (hpos : argDef.isPositional = true) :
    (∀ (P : List (String × Arg)) (rest : List String) (p : ParsedArgs) (i : Nat),
      parseLoop E P (tok :: rest) p i = parseLoop E P rest p i) ∧
    ((E.map Prod.fst).Nodup → argDef.hasDefault = false →
      ∃ nm, parseArgs [tok] (some E) =
        Except.error (ParseError.missingRequired nm)) := by
  have hf' : findFlagEntry E (strDrop tok 2) = some (key, argDef) := by
    rw [htok2]
    exact hf
  refine ⟨?_, ?_⟩
  · intro P rest p i
    exact parseLoop_cons_posEntrySkip E P htok1 hf' hpos rest p i
  · intro hnd hdef
    have hloop : parseLoop E (positionalsOf E) [tok] (seedDefaults E) 0 =
        Except.ok (seedDefaults E, 0) := by
      rw [parseLoop_cons_posEntrySkip E (positionalsOf E) htok1 hf' hpos [] _ 0,
        parseLoop_nil]
    have hmemE : (key, argDef) ∈ E := List.mem_of_find?_eq_some hf
    have hmemP : (key, argDef) ∈ positionalsOf E := by
      rw [positionalsOf, List.mem_filter]
      exact ⟨hmemE, hpos⟩
    have hunset : getArg (seedDefaults E) key = none := by
      rw [seedDefaults, getArg_seedDefaultsAux_of_none E [] key ?_]
      · rfl
      · intro b hb
        have hba : b = argDef := mem_unique_of_nodup_keys hnd hb hmemE
        rw [hba]
        exact seedValue_none_of_required hdef hpos
    obtain ⟨k', a', _, _, _, herr⟩ :=
      parseArgs_missing_of_unset hloop hmemP hdef hunset
    exact ⟨a'.name, herr⟩

/-- C10 witness: the theorem applied to a schema with one required
positional named `name` and the token `--name`. -/
theorem claim_C10_witness :
    (strStartsWith "--name" "--" = true) ∧
    (strDrop "--name" 2 = "name") ∧
    (findFlagEntry nameOnlyEntries "name" =
      some ("name", Arg.positionalString "name" none "The name")) ∧
    ((Arg.positionalString "name" none "The name").isPositional = true) ∧
    ((nameOnlyEntries.map Prod.fst).Nodup) ∧
    ((Arg.positionalString "name" none "The name").hasDefault = false) ∧
    ∃ nm, parseArgs ["--name"] (some nameOnlyEntries) =
      Except.error (ParseError.missingRequired nm) :=
  ⟨by decide, by decide, by decide, by decide, by decide, by decide,
    (claim_C10 nameOnlyEntries "--name" "name" "name"
      (Arg.positionalString "name" none "The name")
      (by decide) (by decide) (by decide) (by decide)).2 (by decide) (by decide)⟩

theorem checkShortCmdsAux_none :
    ∀ (l : List (String × Cmd)) (added : List String),
      checkShortCmdsAux added l = none →
      (l.filterMap (fun e => e.2.short)).Nodup ∧
      (∀ e ∈ l, ∀ s, e.2.short = some s → s ∉ reservedShortCmds ∧ s ∉ added) := by
  intro l
  induction l with
  | nil =>
    intro added _
    refine ⟨List.nodup_nil, ?_⟩
    intro e he
    simp at he
  | cons hd tl ih =>
    intro added h
    obtain ⟨k, c⟩ := hd
    cases hs : c.short with
    | none =>
      simp only [checkShortCmdsAux, hs] at h
      obtain ⟨h1, h2⟩ := ih added h
      constructor
      · simpa [List.filterMap_cons, hs] using h1
      · intro e he s hes
        rcases List.mem_cons.mp he with he1 | he1
        · rw [he1] at hes
          simp only [hs] at hes
          exact Option.noConfusion hes
        · exact h2 e he1 s hes
    | some s0 =>
      simp only [checkShortCmdsAux, hs] at h
      by_cases hres : s0 ∈ reservedShortCmds
      · rw [if_pos hres] at h
        exact Option.noConfusion h
      · by_cases hadd : s0 ∈ added
        · rw [if_neg hres, if_pos hadd] at h
          exact Option.noConfusion h
        · rw [if_neg hres, if_neg hadd] at h
          obtain ⟨h1, h2⟩ := ih (s0 :: added) h
          constructor
          · rw [show List.filterMap (fun e => e.2.short) ((k, c) :: tl) =
              s0 :: List.filterMap (fun e => e.2.short) tl from by
                simp [List.filterMap_cons, hs]]
            rw [List.nodup_cons]
            refine ⟨?_, h1⟩
            intro hmem
            obtain ⟨e, he, hes⟩ := List.mem_filterMap.mp hmem
            exact (h2 e he s0 hes).2 (List.mem_cons_self _ _)
          · intro e he s hes
            rcases List.mem_cons.mp he with he1 | he1
            · rw [he1] at hes
              simp only [hs, Option.some.injEq] at hes
              rw [← hes]
              exact ⟨hres, hadd⟩
            · have := h2 e he1 s hes
              refine ⟨this.1, ?_⟩
              intro hmem
              exact this.2 (List.mem_cons_of_mem _ hmem)

/-- C8: a registry in which two commands share a `short` alias, or in which
some command's `short` is one of the reserved tokens `i`/`h`, is rejected by
the startup validation: `createCLI` reports the violation and exits with
status 1 for every argv and every input provider — before any input is read
and before any command handler could run. -/
theorem claim_C8 (cmds : List (String × Cmd))
    (hviol : ¬ (cmds.filterMap (fun e => e.2.short)).Nodup ∨
      ∃ e ∈ cmds, ∃ s, e.2.short = some s ∧ s ∈ reservedShortCmds) :
    ∃ err, checkShortCmds cmds = some err ∧
      ∀ (sortList : Option (List String)) (ctf : Option String)
        (cargs : List String) (ip : InputProvider),
        createCLIOutcome cmds sortList ctf cargs ip = CliOutcome.schemaViolation err ∧
        CliOutcome.exitCode (createCLIOutcome cmds sortList ctf cargs ip) = 1 := by
  cases hchk : checkShortCmds cmds with
  | none =>
    exfalso
    obtain ⟨h1, h2⟩ := checkShortCmdsAux_none cmds [] hchk
    rcases hviol with hv | ⟨e, he, s, hes, hres⟩
    · exact hv h1
    · exact (h2 e he s hes).1 hres
  | some err =>
    refine ⟨err, rfl, ?_⟩
    intro sortList ctf cargs ip
    constructor
    · simp [createCLIOutcome, hchk]
    · simp [createCLIOutcome, hchk, CliOutcome.exitCode]

/-- C8 witness: the theorem applied to a registry with a duplicated short
alias `o`. -/
theorem claim_C8_witness :
    (¬ (dupShortCmds.filterMap (fun e => e.2.short)).Nodup ∨
      ∃ e ∈ dupShortCmds, ∃ s, e.2.short = some s ∧ s ∈ reservedShortCmds) ∧
    ∃ err, checkShortCmds dupShortCmds = some err ∧
      ∀ (sortList : Option (List String)) (ctf : Option String)
        (cargs : List String) (ip : InputProvider),
        createCLIOutcome dupShortCmds sortList ctf cargs ip =
          CliOutcome.schemaViolation err ∧
        CliOutcome.exitCode (createCLIOutcome dupShortCmds sortList ctf cargs ip) = 1 :=
  ⟨by decide, claim_C8 dupShortCmds (by decide)⟩

/-- C4: if the scan of the raw vector ends normally and some positional
argument without a `default` is still unassigned, parsing fails with a
"Missing required argument <name>" error naming a (the first) missing
required field — the value is never silently defaulted — and dispatching
exits with status 1 without ever invoking the handler. -/
theorem claim_C4 (entries : List (String × Arg)) (rawArgs : List String)
    (r : ParsedArgs) (i' : Nat) (k : String) (a : Arg)
    (hloop : parseLoop entries (positionalsOf entries) rawArgs
      (seedDefaults entries) 0 = Except.ok (r, i'))
    (hmem : (k, a) ∈ positionalsOf entries)
    (hreq : a.hasDefault = false)
    (hunset : getArg r k = none) :
    ∃ k' a', (k', a') ∈ positionalsOf entries ∧ a'.hasDefault = false ∧
      getArg r k' = none ∧
      parseArgs rawArgs (some entries) =
        Except.error (ParseError.missingRequired a'.name) ∧
      (ParseError.missingRequired a'.name).message =
        "Error: Missing required argument <" ++ a'.name ++ ">" ∧
      ∀ (cmds : List (String × Cmd)) (cmd cmdId : String) (c : Cmd),
        cmds.find? (cmdMatches cmd) = some (cmdId, c) → c.args = some entries →
        rawArgs.contains "-h" = false → rawArgs.contains "--help" = false →
        runCmd cmds cmd rawArgs =
          CmdOutcome.parseFailed (ParseError.missingRequired a'.name) ∧
        CmdOutcome.exitCode (runCmd cmds cmd rawArgs) = 1 ∧
        ∀ cid rec, runCmd cmds cmd rawArgs ≠ CmdOutcome.ran cid rec := by
  obtain ⟨k', a', hmem', hreq', hunset', herr⟩ :=
    parseArgs_missing_of_unset hloop hmem hreq hunset
  refine ⟨k', a', hmem', hreq', hunset', herr, rfl, ?_⟩
  intro cmds cmd cmdId c hfind hargs hh1 hh2
  have hrun : runCmd cmds cmd rawArgs =
      CmdOutcome.parseFailed (ParseError.missingRequired a'.name) :=
    runCmd_of_parse_error hfind hh1 hh2 (by rw [hargs]; exact herr)
  refine ⟨hrun, by rw [hrun]; rfl, ?_⟩
  intro cid rec hcon
  rw [hrun] at hcon
  exact CmdOutcome.noConfusion hcon

/-- C4 witness: the theorem applied to the server schema with an empty raw
vector, whose scan ends normally leaving `port` unset. -/
theorem claim_C4_witness :
    parseLoop serverEntries (positionalsOf serverEntries) []
      (seedDefaults serverEntries) 0 = Except.ok (seedDefaults serverEntries, 0) ∧
    ((("port" : String), Arg.positionalNumber "port" none "Port number") ∈
      positionalsOf serverEntries) ∧
    ((Arg.positionalNumber "port" none "Port number").hasDefault = false) ∧
    (getArg (seedDefaults serverEntries) "port" = none) ∧
    ∃ k' a', (k', a') ∈ positionalsOf serverEntries ∧ a'.hasDefault = false ∧
      getArg (seedDefaults serverEntries) k' = none ∧
      parseArgs [] (some serverEntries) =
        Except.error (ParseError.missingRequired a'.name) ∧
      (ParseError.missingRequired a'.name).message =
        "Error: Missing required argument <" ++ a'.name ++ ">" ∧
      ∀ (cmds : List (String × Cmd)) (cmd cmdId : String) (c : Cmd),
        cmds.find? (cmdMatches cmd) = some (cmdId, c) → c.args = some serverEntries →
        List.contains [] "-h" = false → List.contains [] "--help" = false →
        runCmd cmds cmd [] =
          CmdOutcome.parseFailed (ParseError.missingRequired a'.name) ∧
        CmdOutcome.exitCode (runCmd cmds cmd []) = 1 ∧
        ∀ cid rec, runCmd cmds cmd [] ≠ CmdOutcome.ran cid rec :=
  ⟨by decide, by decide, by decide, by decide,
    claim_C4 serverEntries [] (seedDefaults serverEntries) 0 "port"
      (Arg.positionalNumber "port" none "Port number")
      (by decide) (by decide) (by decide) (by decide)⟩

/-- Agreement of two parse results on every positional field: same error, or
both records assign the same value to every positional key. -/
def exceptAgreeOnPositionals (entries : List (String × Arg)) :
    Except ParseError ParsedArgs → Except ParseError ParsedArgs → Prop
  | Except.error e1, Except.error e2 => e1 = e2
  | Except.ok p1, Except.ok p2 =>
      ∀ e ∈ positionalsOf entries, getArg p1 e.1 = getArg p2 e.1
  | _, _ => False

theorem pos_key_ne_of_nonpos {entries : List (String × Arg)}
    (hnd : (entries.map Prod.fst).Nodup) {key : String} {fa : Arg}
    (hkeyE : (key, fa) ∈ entries) (hfanp : fa.isPositional = false)
    {e : String × Arg} (he : e ∈ positionalsOf entries) : e.1 ≠ key := by
  obtain ⟨k0, a0⟩ := e
  intro hkk
  simp only at hkk
  subst hkk
  rw [positionalsOf, List.mem_filter] at he
  have : a0 = fa := mem_unique_of_nodup_keys hnd he.1 hkeyE
  rw [this] at he
  rw [hfanp] at he
  exact Bool.noConfusion he.2

/-- C1: positional tokens are assigned to positional slots strictly in
schema declaration order by their relative order alone.  Moving a boolean
flag token from anywhere among plain/boolean-flag tokens to the front leaves
the parse result literally unchanged (so `a --flag b` and `--flag a b` parse
to identical records), and inserting the flag token does not change which
value is assigned to any positional slot. -/
theorem claim_C1 (entries : List (String × Arg)) (tok f key n d : String)
    (hnd : (entries.map Prod.fst).Nodup)
    (htok1 : strStartsWith tok "--" = true) (htok2 : strDrop tok 2 = f)
    (hf : findFlagEntry entries f = some (key, Arg.flag n d))
    (xs ys : List String)
    (hxs : onlyBoolFlagTokens entries xs = true) :
    parseArgs (xs ++ tok :: ys) (some entries) =
      parseArgs (tok :: (xs ++ ys)) (some entries) ∧
    exceptAgreeOnPositionals entries
      (parseArgs (xs ++ tok :: ys) (some entries))
      (parseArgs (xs ++ ys) (some entries)) := by
  have hsub : ∀ e ∈ positionalsOf entries, e ∈ entries ∧ e.2.isPositional = true := by
    intro e he
    rw [positionalsOf, List.mem_filter] at he
    exact he
  have hkeyE : (key, Arg.flag n d) ∈ entries := List.mem_of_find?_eq_some hf
  have hkeyseed : (getArg (seedDefaults entries) key).isSome := by
    rw [seedDefaults]
    exact getArg_seedDefaultsAux_isSome entries [] key (Arg.flag n d) hkeyE
      (by simp [Arg.seedValue])
  have hf' : findFlagEntry entries (strDrop tok 2) = some (key, Arg.flag n d) := by
    rw [htok2]
    exact hf
  have hmove : parseLoop entries (positionalsOf entries) (xs ++ tok :: ys)
      (seedDefaults entries) 0 =
      parseLoop entries (positionalsOf entries) (tok :: (xs ++ ys))
        (seedDefaults entries) 0 :=
    parseLoop_flag_move entries (positionalsOf entries) hnd hsub htok1 htok2 hf
      xs (onlyBoolFlagTokens_spec hxs) ys (seedDefaults entries) 0 hkeyseed
  have hpart1 : parseArgs (xs ++ tok :: ys) (some entries) =
      parseArgs (tok :: (xs ++ ys)) (some entries) := by
    simp only [parseArgs]
    rw [hmove]
  refine ⟨hpart1, ?_⟩
  rw [hpart1]
  have hstep : parseLoop entries (positionalsOf entries) (tok :: (xs ++ ys))
      (seedDefaults entries) 0 =
      parseLoop entries (positionalsOf entries) (xs ++ ys)
        (setArg (seedDefaults entries) key (Value.bool true)) 0 :=
    parseLoop_cons_boolflag entries (positionalsOf entries) htok1 hf' (xs ++ ys)
      (seedDefaults entries) 0
  have hrel := parseLoop_congr_aux entries (positionalsOf entries) key
    (xs ++ ys).length (xs ++ ys) (le_refl _)
    (setArg (seedDefaults entries) key (Value.bool true)) (seedDefaults entries) 0
    (fun k' hk' => getArg_setArg_ne _ _ _ _ hk')
  cases hA : parseLoop entries (positionalsOf entries) (xs ++ ys)
      (setArg (seedDefaults entries) key (Value.bool true)) 0 with
  | error e1 =>
    rw [hA] at hrel
    cases hB : parseLoop entries (positionalsOf entries) (xs ++ ys)
        (seedDefaults entries) 0 with
    | error e2 =>
      rw [hB] at hrel
      simp only [exceptRel] at hrel
      simp only [parseArgs]
      rw [hstep, hA, hB, hrel]
      exact rfl
    | ok pr2 =>
      rw [hB] at hrel
      obtain ⟨r2, i2⟩ := pr2
      simp only [exceptRel] at hrel
  | ok pr1 =>
    obtain ⟨r1, i1⟩ := pr1
    rw [hA] at hrel
    cases hB : parseLoop entries (positionalsOf entries) (xs ++ ys)
        (seedDefaults entries) 0 with
    | error e2 =>
      rw [hB] at hrel
      simp only [exceptRel] at hrel
    | ok pr2 =>
      obtain ⟨r2, i2⟩ := pr2
      rw [hB] at hrel
      simp only [exceptRel] at hrel
      obtain ⟨hi, hagree⟩ := hrel
      have hposne : ∀ e ∈ positionalsOf entries, e.1 ≠ key := by
        intro e he
        exact pos_key_ne_of_nonpos hnd hkeyE (by simp [Arg.isPositional]) he
      have hfind : firstMissingRequired (positionalsOf entries) r1 =
          firstMissingRequired (positionalsOf entries) r2 := by
        rw [firstMissingRequired, firstMissingRequired]
        apply find?_congr_of_eq
        intro e he
        rw [hagree e.1 (hposne e he)]
      simp only [parseArgs]
      rw [hstep, hA, hB]
      simp only []
      rw [hfind]
      cases hm : firstMissingRequired (positionalsOf entries) r2 with
      | none =>
        simp only [exceptAgreeOnPositionals]
        intro e he
        exact hagree e.1 (hposne e he)
      | some ka =>
        obtain ⟨k0, a0⟩ := ka
        exact rfl

/-- C1 witness: the theorem applied to the schema `first, second, verbose`
with `xs = ["a"]`, `ys = ["3"]` — `a --verbose 3` versus `--verbose a 3`. -/
theorem claim_C1_witness :
    ((orderEntries.map Prod.fst).Nodup) ∧
    (strStartsWith "--verbose" "--" = true) ∧
    (strDrop "--verbose" 2 = "verbose") ∧
    (findFlagEntry orderEntries "verbose" =
      some ("verbose", Arg.flag "verbose" "Enable verbose output")) ∧
    (onlyBoolFlagTokens orderEntries ["a"] = true) ∧
    (parseArgs (["a"] ++ "--verbose" :: ["3"]) (some orderEntries) =
      parseArgs ("--verbose" :: (["a"] ++ ["3"])) (some orderEntries) ∧
    exceptAgreeOnPositionals orderEntries
      (parseArgs (["a"] ++ "--verbose" :: ["3"]) (some orderEntries))
      (parseArgs (["a"] ++ ["3"]) (some orderEntries))) :=
  ⟨by decide, by decide, by decide, by decide, by decide,
    claim_C1 orderEntries "--verbose" "verbose" "verbose" "verbose"
      "Enable verbose output" (by decide) (by decide) (by decide) (by decide)
      ["a"] ["3"] (by decide)⟩

/-! ### The interactive fallback's skipped numeric field -/

/-- The number of required positional fields of a schema — exactly the
fields the guided prompting loop asks for. -/
def requiredCount : List (String × Arg) → Nat
  | [] => 0
  | (_, a) :: rest =>
    (if a.isPositional && !a.hasDefault then 1 else 0) + requiredCount rest

theorem requiredCount_eq_countP (l : List (String × Arg)) :
    requiredCount l = l.countP (fun e => e.2.isPositional && !e.2.hasDefault) := by
  induction l with
  | nil => rfl
  | cons hd tl ih =>
    obtain ⟨k2, a2⟩ := hd
    rw [requiredCount, List.countP_cons, ih]
    by_cases hp : (a2.isPositional && !a2.hasDefault) = true
    · simp only [if_pos hp]
      omega
    · simp only [if_neg hp]
      omega

/-- Skipping a `null` numeric answer omits exactly that field's token from
the synthetic argv. -/
theorem collectArgs_skip (ip : InputProvider) (k n d : String)
    (hnum : ip.number n = none) :
    ∀ (pre post : List (String × Arg)),
      collectArgs ip (pre ++ (k, Arg.positionalNumber n none d) :: post) =
        collectArgs ip (pre ++ post) := by
  intro pre
  induction pre with
  | nil =>
    intro post
    simp [collectArgs, hnum]
  | cons hd tl ih =>
    intro post
    obtain ⟨k2, a2⟩ := hd
    cases a2 with
    | positionalString n2 d2 ds2 =>
      cases d2 with
      | none => simp only [List.cons_append, collectArgs, List.append_eq, ih]
      | some v => simp only [List.cons_append, collectArgs, List.append_eq, ih]
    | positionalNumber n2 d2 ds2 =>
      cases d2 with
      | none => simp only [List.cons_append, collectArgs, List.append_eq, ih]
      | some v => simp only [List.cons_append, collectArgs, List.append_eq, ih]
    | flag n2 d2 => simp only [List.cons_append, collectArgs, List.append_eq, ih]
    | valueStringFlag n2 d2 ds2 =>
      simp only [List.cons_append, collectArgs, List.append_eq, ih]
    | valueNumberFlag n2 d2 ds2 =>
      simp only [List.cons_append, collectArgs, List.append_eq, ih]

/-- The synthetic argv never has more tokens than there are required
positional fields. -/
theorem collectArgs_length_le (ip : InputProvider) :
    ∀ (l : List (String × Arg)), (collectArgs ip l).length ≤ requiredCount l := by
  intro l
  induction l with
  | nil => simp [collectArgs, requiredCount]
  | cons hd tl ih =>
    obtain ⟨k2, a2⟩ := hd
    cases a2 with
    | positionalString n2 d2 ds2 =>
      cases d2 with
      | none =>
        simp only [collectArgs, requiredCount, List.length_cons]
        simp only [Arg.isPositional, Arg.hasDefault, Option.isSome_none,
          Bool.not_false, Bool.and_true, if_true]
        omega
      | some v =>
        simp only [collectArgs, requiredCount]
        simp only [Arg.isPositional, Arg.hasDefault, Option.isSome_some,
          Bool.not_true, Bool.and_false, if_false]
        omega
    | positionalNumber n2 d2 ds2 =>
      cases d2 with
      | none =>
        cases hn : ip.number n2 with
        | none =>
          simp only [collectArgs, hn, List.nil_append, requiredCount]
          simp only [Arg.isPositional, Arg.hasDefault, Option.isSome_none,
            Bool.not_false, Bool.and_true, if_true]
          omega
        | some v =>
          simp only [collectArgs, hn, List.singleton_append, List.length_cons,
            requiredCount]
          simp only [Arg.isPositional, Arg.hasDefault, Option.isSome_none,
            Bool.not_false, Bool.and_true, if_true]
          omega
      | some v =>
        simp only [collectArgs, requiredCount]
        simp only [Arg.isPositional, Arg.hasDefault, Option.isSome_some,
          Bool.not_true, Bool.and_false, if_false]
        omega
    | flag n2 d2 =>
      simp only [collectArgs, requiredCount]
      simp only [Arg.isPositional, Bool.false_and, if_false]
      omega
    | valueStringFlag n2 d2 ds2 =>
      simp only [collectArgs, requiredCount]
      simp only [Arg.isPositional, Bool.false_and, if_false]
      omega
    | valueNumberFlag n2 d2 ds2 =>
      simp only [collectArgs, requiredCount]
      simp only [Arg.isPositional, Bool.false_and, if_false]
      omega

/-- With at least one skipped numeric field, the synthetic argv is strictly
shorter than the number of required positional fields. -/
theorem collectArgs_length_lt (ip : InputProvider) (k n d : String)
    (hnum : ip.number n = none) :
    ∀ (l : List (String × Arg)), (k, Arg.positionalNumber n none d) ∈ l →
      (collectArgs ip l).length < requiredCount l := by
  intro l
  induction l with
  | nil => intro hmem; simp at hmem
  | cons hd tl ih =>
    intro hmem
    rcases List.mem_cons.mp hmem with h1 | h1
    · rw [← h1]
      simp only [collectArgs, hnum, List.nil_append, requiredCount]
      simp only [Arg.isPositional, Arg.hasDefault, Option.isSome_none,
        Bool.not_false, Bool.and_true, if_true]
      have := collectArgs_length_le ip tl
      omega
    · obtain ⟨k2, a2⟩ := hd
      have hlt := ih h1
      cases a2 with
      | positionalString n2 d2 ds2 =>
        cases d2 with
        | none =>
          simp only [collectArgs, requiredCount, List.length_cons]
          simp only [Arg.isPositional, Arg.hasDefault, Option.isSome_none,
            Bool.not_false, Bool.and_true, if_true]
          omega
        | some v =>
          simp only [collectArgs, requiredCount]
          simp only [Arg.isPositional, Arg.hasDefault, Option.isSome_some,
            Bool.not_true, Bool.and_false, if_false]
          omega
      | positionalNumber n2 d2 ds2 =>
        cases d2 with
        | none =>
          cases hn : ip.number n2 with
          | none =>
            simp only [collectArgs, hn, List.nil_append, requiredCount]
            simp only [Arg.isPositional, Arg.hasDefault, Option.isSome_none,
              Bool.not_false, Bool.and_true, if_true]
            omega
          | some v =>
            simp only [collectArgs, hn, List.singleton_append, List.length_cons,
              requiredCount]
            simp only [Arg.isPositional, Arg.hasDefault, Option.isSome_none,
              Bool.not_false, Bool.and_true, if_true]
            omega
        | some v =>
          simp only [collectArgs, requiredCount]
          simp only [Arg.isPositional, Arg.hasDefault, Option.isSome_some,
            Bool.not_true, Bool.and_false, if_false]
          omega
      | flag n2 d2 =>
        simp only [collectArgs, requiredCount]
        simp only [Arg.isPositional, Bool.false_and, if_false]
        omega
      | valueStringFlag n2 d2 ds2 =>
        simp only [collectArgs, requiredCount]
        simp only [Arg.isPositional, Bool.false_and, if_false]
        omega
      | valueNumberFlag n2 d2 ds2 =>
        simp only [collectArgs, requiredCount]
        simp only [Arg.isPositional, Bool.false_and, if_false]
        omega

/-- Pigeonhole: a raw vector shorter than the number of required positional
fields can never satisfy all of them, so parsing the synthetic argv with a
skipped field always fails. -/
theorem parseArgs_error_of_skipped (entries : List (String × Arg))
    (ip : InputProvider) (k n d : String)
    (hnd : (entries.map Prod.fst).Nodup)
    (hmem : (k, Arg.positionalNumber n none d) ∈ entries)
    (hnum : ip.number n = none) :
    ∃ e, parseArgs (collectArgs ip entries) (some entries) = Except.error e := by
  cases hloop : parseLoop entries (positionalsOf entries) (collectArgs ip entries)
      (seedDefaults entries) 0 with
  | error e => exact ⟨e, parseArgs_of_loop_error hloop⟩
  | ok ri =>
    obtain ⟨r, i'⟩ := ri
    have hib : i' ≤ (collectArgs ip entries).length := by
      have := parseLoop_bound entries (positionalsOf entries)
        (collectArgs ip entries) (seedDefaults entries) 0 r i' hloop
      omega
    have hlt : (collectArgs ip entries).length < requiredCount entries :=
      collectArgs_length_lt ip k n d hnum entries hmem
    have hcount : requiredCount entries =
        (positionalsOf entries).countP (fun e => !e.2.hasDefault) := by
      rw [requiredCount_eq_countP, positionalsOf, List.countP_filter]
      congr 1
      funext e
      rw [Bool.and_comm]
    have hsplit : (positionalsOf entries).countP (fun e => !e.2.hasDefault) =
        ((positionalsOf entries).take i').countP (fun e => !e.2.hasDefault) +
        ((positionalsOf entries).drop i').countP (fun e => !e.2.hasDefault) := by
      rw [← List.countP_append, List.take_append_drop]
    have htake : ((positionalsOf entries).take i').countP
        (fun e => !e.2.hasDefault) ≤ i' := by
      have h1 := List.countP_le_length
        (p := fun (e : String × Arg) => !e.2.hasDefault)
        (l := (positionalsOf entries).take i')
      have h2 : ((positionalsOf entries).take i').length ≤ i' := by
        rw [List.length_take]
        omega
      omega
    have hdrop : 0 < ((positionalsOf entries).drop i').countP
        (fun e => !e.2.hasDefault) := by
      omega
    obtain ⟨e0, he0mem, he0p⟩ := List.countP_pos_iff.mp hdrop
    obtain ⟨m, hm⟩ := List.mem_iff_get?.mp he0mem
    have hm' : (positionalsOf entries).get? (i' + m) = some e0 := by
      rw [List.get?_eq_getElem?] at hm ⊢
      rw [← List.getElem?_drop]
      exact hm
    obtain ⟨k0, a0⟩ := e0
    have hmemP : (k0, a0) ∈ positionalsOf entries := List.get?_mem hm'
    have hmemE : (k0, a0) ∈ entries ∧ a0.isPositional = true := by
      rw [positionalsOf, List.mem_filter] at hmemP
      exact hmemP
    have hreq : a0.hasDefault = false := by
      simpa using he0p
    have hseed : getArg (seedDefaults entries) k0 = none := by
      rw [seedDefaults, getArg_seedDefaultsAux_of_none entries [] k0 ?_]
      · rfl
      · intro b hb
        have hba : b = a0 := mem_unique_of_nodup_keys hnd hb hmemE.1
        rw [hba]
        exact seedValue_none_of_required hreq hmemE.2
    have hndP : ((positionalsOf entries).map Prod.fst).Nodup := by
      apply List.Nodup.sublist _ hnd
      exact List.Sublist.map Prod.fst (List.filter_sublist entries)
    have hsubP : ∀ e ∈ positionalsOf entries, e ∈ entries ∧ e.2.isPositional = true := by
      intro e he
      rw [positionalsOf, List.mem_filter] at he
      exact he
    have hunset : getArg r k0 = none := by
      rw [parseLoop_unset_aux entries (positionalsOf entries) hnd hsubP hndP
        (collectArgs ip entries).length (collectArgs ip entries) (le_refl _)
        (seedDefaults entries) 0 r i' hloop (i' + m) k0 a0 hm' (by omega)]
      exact hseed
    obtain ⟨k', a', _, _, _, herr⟩ :=
      parseArgs_missing_of_unset hloop hmemP hreq hunset
    exact ⟨ParseError.missingRequired a'.name, herr⟩

/-- C6 (amended): in the interactive fallback, a `null` numeric answer for a
required positional-number field omits that field's token from the synthetic
argv, and the subsequent dispatch of the selected command never invokes the
handler: if no collected response is `-h` or `--help`, it fails with a parse
error and exits with status 1 — though the error may be a different parse
error than "missing required argument" when a later field's collected value
slides into the skipped positional slot. -/
theorem claim_C6 (cmds : List (String × Cmd)) (sortList : Option (List String))
    (ip : InputProvider) (selectedCmd : String) (cmdDef : Cmd)
    (pre post : List (String × Arg)) (k n d : String)
    (hsel1 : ip.select "Select a command" (interactiveSelectOptions cmds sortList) =
      "__run_with_args__")
    (hsel2 : ip.select "Select a command"
      (((cmdEntriesOf cmds sortList).filter
        (fun e => hasRequiredArgs e.2.args)).map Prod.fst) = selectedCmd)
    (hfindKey : cmds.find? (fun e => e.1 == selectedCmd) = some (selectedCmd, cmdDef))
    (hfindDispatch : cmds.find? (cmdMatches selectedCmd) = some (selectedCmd, cmdDef))
    (hargs : cmdDef.args = some (pre ++ (k, Arg.positionalNumber n none d) :: post))
    (hnd : (((pre ++ (k, Arg.positionalNumber n none d) :: post)).map Prod.fst).Nodup)
    (hnum : ip.number n = none) :
    collectArgs ip (pre ++ (k, Arg.positionalNumber n none d) :: post) =
      collectArgs ip (pre ++ post) ∧
    interactiveFallback cmds sortList ip =
      CliOutcome.fromCmd (runCmd cmds selectedCmd
        (collectArgs ip (pre ++ (k, Arg.positionalNumber n none d) :: post))) ∧
    (∀ cid r, runCmd cmds selectedCmd
      (collectArgs ip (pre ++ (k, Arg.positionalNumber n none d) :: post)) ≠
        CmdOutcome.ran cid r) ∧
    ((collectArgs ip (pre ++ (k, Arg.positionalNumber n none d) :: post)).contains
        "-h" = false →
     (collectArgs ip (pre ++ (k, Arg.positionalNumber n none d) :: post)).contains
        "--help" = false →
     ∃ e, runCmd cmds selectedCmd
        (collectArgs ip (pre ++ (k, Arg.positionalNumber n none d) :: post)) =
          CmdOutcome.parseFailed e ∧
       CmdOutcome.exitCode (runCmd cmds selectedCmd
        (collectArgs ip (pre ++ (k, Arg.positionalNumber n none d) :: post))) = 1) := by
  set entries := pre ++ (k, Arg.positionalNumber n none d) :: post with hentries
  have hmem : (k, Arg.positionalNumber n none d) ∈ entries := by
    rw [hentries]
    exact List.mem_append_right _ (List.mem_cons_self _ _)
  have hperr : ∃ e, parseArgs (collectArgs ip entries) (some entries) =
      Except.error e :=
    parseArgs_error_of_skipped entries ip k n d hnd hmem hnum
  refine ⟨collectArgs_skip ip k n d hnum pre post, ?_, ?_, ?_⟩
  · rw [interactiveFallback]
    simp only [hsel1, hsel2, hfindKey, hargs]
    rw [if_pos trivial]
  · intro cid r hcon
    rw [runCmd, hfindDispatch] at hcon
    simp only [] at hcon
    by_cases hcont : ((collectArgs ip entries).contains "-h" ||
        (collectArgs ip entries).contains "--help") = true
    · rw [if_pos hcont] at hcon
      exact CmdOutcome.noConfusion hcon
    · rw [if_neg hcont] at hcon
      obtain ⟨e, he⟩ := hperr
      rw [hargs, he] at hcon
      exact CmdOutcome.noConfusion hcon
  · intro hh1 hh2
    obtain ⟨e, he⟩ := hperr
    have hrun : runCmd cmds selectedCmd (collectArgs ip entries) =
        CmdOutcome.parseFailed e :=
      runCmd_of_parse_error hfindDispatch hh1 hh2 (by rw [hargs]; exact he)
    exact ⟨e, hrun, by rw [hrun]; rfl⟩

/-- A registry with one command whose schema has a required numeric
positional `a` followed by a required string positional `c`. -/
def c6PairCmds : List (String × Cmd) :=
  [("cmd", { short := none, description := "Command",
             args := some [("a", Arg.positionalNumber "a" none "A number"),
                           ("c", Arg.positionalString "c" none "A string")] })]

/-- A registry with one command whose schema has a single required numeric
positional `a`. -/
def c6SingleCmds : List (String × Cmd) :=
  [("cmd", { short := none, description := "Only command",
             args := some [("a", Arg.positionalNumber "a" none "A number")] })]

/-- A scripted input provider: picks the sentinel when offered, then the
command `cmd`; answers `x` to every text prompt and fails (`null`) on every
numeric prompt. -/
def c6Ip : InputProvider :=
  { select := fun _ opts =>
      if opts.contains "__run_with_args__" then "__run_with_args__" else "cmd"
  , text := fun _ => "x"
  , number := fun _ => none }

/-- C6 counterexample: with schema `a : positional-number (required),
c : positional-string (required)`, the numeric prompt for `a` returns `null`
and the text answer `"x"` for `c` slides into the `a` slot, so the dispatch
fails with `Invalid number "x" for a` — a parse error, but not the
"missing required argument" error the claim asserts. -/
theorem claim_C6_counterexample :
    interactiveFallback c6PairCmds none c6Ip =
      CliOutcome.fromCmd
        (CmdOutcome.parseFailed (ParseError.invalidNumberPositional "x" "a")) ∧
    (∀ nm, ParseError.invalidNumberPositional "x" "a" ≠
      ParseError.missingRequired nm) ∧
    c6Ip.number "a" = none := by
  refine ⟨by decide, ?_, by decide⟩
  intro nm hcon
  exact ParseError.noConfusion hcon

/-- C6 witness: the amended theorem applied to the single-field registry and
the scripted provider whose numeric prompt fails. -/
theorem claim_C6_witness :
    (c6Ip.select "Select a command" (interactiveSelectOptions c6SingleCmds none) =
      "__run_with_args__") ∧
    (c6Ip.select "Select a command"
      (((cmdEntriesOf c6SingleCmds none).filter
        (fun e => hasRequiredArgs e.2.args)).map Prod.fst) = "cmd") ∧
    (c6SingleCmds.find? (fun e => e.1 == "cmd") =
      some ("cmd",
        { short := none, description := "Only command",
          args := some [("a", Arg.positionalNumber "a" none "A number")] })) ∧
    (c6Ip.number "a" = none) ∧
    (collectArgs c6Ip ([] ++ ("a", Arg.positionalNumber "a" none "A number") :: []) =
      collectArgs c6Ip ([] ++ []) ∧
    interactiveFallback c6SingleCmds none c6Ip =
      CliOutcome.fromCmd (runCmd c6SingleCmds "cmd"
        (collectArgs c6Ip ([] ++ ("a", Arg.positionalNumber "a" none "A number") :: []))) ∧
    (∀ cid r, runCmd c6SingleCmds "cmd"
      (collectArgs c6Ip ([] ++ ("a", Arg.positionalNumber "a" none "A number") :: [])) ≠
        CmdOutcome.ran cid r) ∧
    ((collectArgs c6Ip
        ([] ++ ("a", Arg.positionalNumber "a" none "A number") :: [])).contains
        "-h" = false →
     (collectArgs c6Ip
        ([] ++ ("a", Arg.positionalNumber "a" none "A number") :: [])).contains
        "--help" = false →
     ∃ e, runCmd c6SingleCmds "cmd"
        (collectArgs c6Ip ([] ++ ("a", Arg.positionalNumber "a" none "A number") :: [])) =
          CmdOutcome.parseFailed e ∧
       CmdOutcome.exitCode (runCmd c6SingleCmds "cmd"
        (collectArgs c6Ip
          ([] ++ ("a", Arg.positionalNumber "a" none "A number") :: []))) = 1)) :=
  ⟨by decide, by decide, by decide, by decide,
    claim_C6 c6SingleCmds none c6Ip "cmd"
      { short := none, description := "Only command",
        args := some [("a", Arg.positionalNumber "a" none "A number")] }
      [] [] "a" "a" "A number"
      (by decide) (by decide) (by decide) (by decide) (by decide) (by decide)
      (by decide)⟩

end CliSpec
